import Mathlib

/-! Shallow embedding of `src/app.py` (python-parser): the JSON-recovery and
text-chunking pipeline.  Pure helpers of the source are translated to Lean
functions on `String` / `List Char`; the two Flask routes are modelled from
the point where the acquired page text is in hand, with the generative call
an explicit oracle returning `Except` (an exception is an `error` value).
Machine integers do not occur; JSON numbers are modelled as integers (the
schemas of the spec use only integer fields; floats and `\uXXXX` escapes are
out of scope of every claim). -/

/-- The left curly brace character, written by code point. -/
def lbrace : Char := Char.ofNat 123

/-- The right curly brace character, written by code point. -/
def rbrace : Char := Char.ofNat 125

/-- The backquote character, written by code point. -/
def backq : Char := Char.ofNat 96

/-- Whitespace accepted by Python's strict `json.loads` between tokens. -/
def isJsonWs (c : Char) : Bool := c = ' ' || c = '\t' || c = '\n' || c = '\r'

/-- ASCII whitespace of the regex class `\s` and of `str.strip` (space, tab,
newline, carriage return, vertical tab, form feed). -/
def isPySpace (c : Char) : Bool :=
  c = ' ' || c = '\t' || c = '\n' || c = '\r' || c = Char.ofNat 11 || c = Char.ofNat 12

/-- Parsed JSON values as produced by `json.loads` (dicts keep their key
order as association lists). -/
inductive Json where
  | null : Json
  | bool (b : Bool) : Json
  | int (n : Int) : Json
  | str (s : String) : Json
  | arr (xs : List Json) : Json
  | obj (kvs : List (String × Json)) : Json

/-- Characters allowed unescaped inside a JSON string literal: strict mode
rejects a raw quote, a raw backslash and raw control characters. -/
def strCharOk (c : Char) : Bool := c ≠ '"' && c ≠ '\\' && decide (32 ≤ c.toNat)

/-- Single-character JSON string escapes. -/
def escChar (c : Char) : Option Char :=
  if c = '"' then some '"'
  else if c = '\\' then some '\\'
  else if c = '/' then some '/'
  else if c = 'n' then some '\n'
  else if c = 't' then some '\t'
  else if c = 'r' then some '\r'
  else if c = 'b' then some (Char.ofNat 8)
  else if c = 'f' then some (Char.ofNat 12)
  else none

/-- Body of a JSON string literal, positioned after the opening quote:
returns the decoded characters and the input after the closing quote. -/
def parseStringBody : List Char → Option (List Char × List Char)
  | [] => none
  | c :: r =>
    if c = '"' then some ([], r)
    else if c = '\\' then
      match r with
      | [] => none
      | e :: r2 =>
        match escChar e with
        | some ch => (parseStringBody r2).map (fun p => (ch :: p.1, p.2))
        | none => none
    else if strCharOk c then (parseStringBody r).map (fun p => (c :: p.1, p.2))
    else none

/-- Numeric value of a list of decimal digits. -/
def digitsVal (ds : List Char) : Nat := ds.foldl (fun a c => a * 10 + (c.toNat - 48)) 0

/-- Unsigned integer token of the strict JSON grammar: `0`, or a nonzero
digit followed by digits (a redundant leading zero is rejected). -/
def parseUIntTok : List Char → Option (Nat × List Char)
  | [] => none
  | c :: r =>
    if c = '0' then some (0, r)
    else if c.isDigit then some (digitsVal (c :: r.takeWhile Char.isDigit), r.dropWhile Char.isDigit)
    else none

/-- Signed integer token: an optional minus sign and an unsigned token. -/
def parseIntTok (s : List Char) : Option (Int × List Char) :=
  match s with
  | '-' :: r => (parseUIntTok r).map (fun p => (-(p.1 : Int), p.2))
  | _ => (parseUIntTok s).map (fun p => ((p.1 : Int), p.2))

/-- The two failure kinds of `json.loads`: a syntax error
(`json.JSONDecodeError`, the kind the directions loop catches) and the
interpreter's `RecursionError`, raised when container nesting exhausts the
recursion limit, which `except json.JSONDecodeError` does not catch. -/
inductive JErr where
  | decode : JErr
  | recursion : JErr

mutual

/-- One strict JSON value positioned at its first character.  `fuel`
decreases at every mutual call and only ensures termination (`json_loads`
supplies more than any parse can use); `depth` is the remaining recursion
budget: entering a nested container consumes one level and exhaustion is
the distinct `RecursionError`. -/
def parseVal : Nat → Nat → List Char → Except JErr (Json × List Char)
  | 0, _, _ => Except.error JErr.decode
  | _+1, _, [] => Except.error JErr.decode
  | f+1, depth, c :: r =>
    if c = lbrace then
      match depth with
      | 0 => Except.error JErr.recursion
      | depth+1 =>
        match r.dropWhile isJsonWs with
        | d :: r2 => if d = rbrace then Except.ok (Json.obj [], r2)
            else parseMembers f depth (r.dropWhile isJsonWs) []
        | [] => Except.error JErr.decode
    else if c = '[' then
      match depth with
      | 0 => Except.error JErr.recursion
      | depth+1 =>
        match r.dropWhile isJsonWs with
        | d :: r2 => if d = ']' then Except.ok (Json.arr [], r2)
            else parseElems f depth (r.dropWhile isJsonWs) []
        | [] => Except.error JErr.decode
    else if c = '"' then
      match parseStringBody r with
      | some p => Except.ok (Json.str (String.mk p.1), p.2)
      | none => Except.error JErr.decode
    else if c = 't' then
      if ['r', 'u', 'e'].isPrefixOf r then Except.ok (Json.bool true, r.drop 3)
      else Except.error JErr.decode
    else if c = 'f' then
      if ['a', 'l', 's', 'e'].isPrefixOf r then Except.ok (Json.bool false, r.drop 4)
      else Except.error JErr.decode
    else if c = 'n' then
      if ['u', 'l', 'l'].isPrefixOf r then Except.ok (Json.null, r.drop 3)
      else Except.error JErr.decode
    else if c = '-' || c.isDigit then
      match parseIntTok (c :: r) with
      | some p => Except.ok (Json.int p.1, p.2)
      | none => Except.error JErr.decode
    else Except.error JErr.decode

/-- Members of a JSON object, positioned at a key.  Strict: keys are quoted
strings, so a trailing comma fails (the recursive call expects a key and
meets the closing brace).  Member values parse at the current remaining
depth; an error of a member value propagates. -/
def parseMembers : Nat → Nat → List Char → List (String × Json) → Except JErr (Json × List Char)
  | 0, _, _, _ => Except.error JErr.decode
  | f+1, depth, '"' :: r, acc =>
    match parseStringBody r with
    | some (k, r2) =>
      match r2.dropWhile isJsonWs with
      | ':' :: r3 =>
        match parseVal f depth (r3.dropWhile isJsonWs) with
        | Except.ok (v, r4) =>
          match r4.dropWhile isJsonWs with
          | ',' :: r5 => parseMembers f depth (r5.dropWhile isJsonWs) (acc ++ [(String.mk k, v)])
          | d :: r5 => if d = rbrace then Except.ok (Json.obj (acc ++ [(String.mk k, v)]), r5)
              else Except.error JErr.decode
          | [] => Except.error JErr.decode
        | Except.error e => Except.error e
      | _ => Except.error JErr.decode
    | none => Except.error JErr.decode
  | _+1, _, _, _ => Except.error JErr.decode

/-- Elements of a JSON array, positioned at a value; an element's error
propagates. -/
def parseElems : Nat → Nat → List Char → List Json → Except JErr (Json × List Char)
  | 0, _, _, _ => Except.error JErr.decode
  | f+1, depth, s, acc =>
    match parseVal f depth s with
    | Except.ok (v, r) =>
      match r.dropWhile isJsonWs with
      | ',' :: r2 => parseElems f depth (r2.dropWhile isJsonWs) (acc ++ [v])
      | ']' :: r2 => Except.ok (Json.arr (acc ++ [v]), r2)
      | _ => Except.error JErr.decode
    | Except.error e => Except.error e

end

/-- CPython's default recursion limit, which bounds how deeply `json.loads`
may nest containers before raising `RecursionError`.  (In CPython the
exact threshold also depends on the stack already in use at the call; the
claims' inputs sit far on either side of the limit, so the default
constant is the faithful model.) -/
def PY_RECURSION_LIMIT : Nat := 1000

/-- Model of `json.loads`: strict parse of exactly one JSON value with
surrounding whitespace.  `error JErr.decode` is a raised
`json.JSONDecodeError`; `error JErr.recursion` is a raised
`RecursionError`.  The fuel `2 * length + 2` dominates the number of
mutual calls any parse can make. -/
def json_loads (s : String) : Except JErr Json :=
  match parseVal (2 * s.data.length + 2) PY_RECURSION_LIMIT (s.data.dropWhile isJsonWs) with
  | Except.ok (v, r) => if r.dropWhile isJsonWs = [] then Except.ok v
      else Except.error JErr.decode
  | Except.error e => Except.error e

/-- Split at the first right brace: `some (through, rest)` where `through`
ends with the first right brace of the input (the lazy `.*?` of the object
pattern stops there). -/
def splitAtRbrace : List Char → Option (List Char × List Char)
  | [] => none
  | c :: r =>
    if c = rbrace then some ([c], r)
    else (splitAtRbrace r).map (fun p => (c :: p.1, p.2))

/-- Matches of `re.findall` with the pattern of a lazy brace pair under
`re.DOTALL`: scan left to right; each match runs from a left brace to the
first right brace after it; scanning resumes after the match; if some left
brace has no right brace after it, no further match exists.  Fuel
`length + 1` suffices: every step consumes at least one character. -/
def findallBracesF : Nat → List Char → List (List Char)
  | 0, _ => []
  | _+1, [] => []
  | f+1, c :: r =>
    if c = lbrace then
      match splitAtRbrace r with
      | some (body, rest) => (c :: body) :: findallBracesF f rest
      | none => []
    else findallBracesF f r

/-- The brace-pair matches of a string (fuel instantiated). -/
def findallBraces (s : List Char) : List (List Char) := findallBracesF (s.length + 1) s

/-- The test `isinstance(obj, dict)` on a parsed value. -/
def isDict : Json → Bool
  | Json.obj _ => true
  | _ => false

/-- The membership test `k in obj` on a parsed JSON dict. -/
def hasKey (o : Json) (k : String) : Bool :=
  match o with
  | Json.obj kvs => kvs.any (fun p => p.1 = k)
  | _ => false

/-- The for-loop of `extract_json_objects`: strictly parse each brace-pair
candidate, keep dicts having the four keys, skip candidates failing with
the caught `JSONDecodeError`; a `RecursionError` is not caught by
`except json.JSONDecodeError` and propagates out of the loop. -/
def objLoop : List (List Char) → List Json → Except String (List Json)
  | [], acc => Except.ok acc
  | m :: ms, acc =>
    match json_loads (String.mk m) with
    | Except.ok obj =>
      objLoop ms (if isDict obj && hasKey obj "type" && hasKey obj "from"
          && hasKey obj "to" && hasKey obj "text" then acc ++ [obj] else acc)
    | Except.error JErr.decode => objLoop ms acc
    | Except.error JErr.recursion => Except.error "RecursionError"

/-- Source `extract_json_objects` with the exception made explicit: find
every lazy brace-pair match and run the loop; `error` is an uncaught
exception propagating to the caller. -/
def extract_json_objectsE (raw : String) : Except String (List Json) :=
  objLoop (findallBraces raw.data) []

/-- Source `extract_json_objects` (value form, as seen by a caller that
handles exceptions; the enclosing route wraps the call in
`except Exception`). -/
def extract_json_objects (raw : String) : List Json :=
  match extract_json_objectsE raw with
  | Except.ok l => l
  | Except.error _ => []

/-- The literal removed first by the code-fence substitution. -/
def tickJson : List Char := "```json".data

/-- The literal removed second by the code-fence substitution. -/
def tickOnly : List Char := "```".data

/-- Model of `re.sub` deleting the code fences: leftmost shortest scan,
preferring the longer alternative at equal positions. -/
def stripTicksF : Nat → List Char → List Char
  | 0, _ => []
  | _+1, [] => []
  | f+1, c :: r =>
    if tickJson.isPrefixOf (c :: r) then stripTicksF f ((c :: r).drop 7)
    else if tickOnly.isPrefixOf (c :: r) then stripTicksF f ((c :: r).drop 3)
    else c :: stripTicksF f r

/-- Code-fence removal (fuel instantiated). -/
def stripTicks (s : List Char) : List Char := stripTicksF (s.length + 1) s

/-- Model of `str.strip()` over ASCII whitespace. -/
def pyStrip (s : List Char) : List Char :=
  ((s.dropWhile isPySpace).reverse.dropWhile isPySpace).reverse

/-- After a right brace: `some k` when the input starts with `k` whitespace
characters followed by a right bracket. -/
def wsThenRBr : List Char → Option Nat
  | [] => none
  | c :: r =>
    if c = ']' then some 0
    else if isPySpace c then (wsThenRBr r).map (· + 1)
    else none

/-- Length through the rightmost close of the greedy array pattern (a right
brace, whitespace, a right bracket); the backtracking of the greedy `.*`
selects the last such close. -/
def lastCloseEnd : List Char → Option Nat
  | [] => none
  | c :: r =>
    match (lastCloseEnd r).map (· + 1) with
    | some e => some e
    | none => if c = rbrace then (wsThenRBr r).map (fun k => k + 2) else none

/-- The greedy bracketed-array match anchored at the head of the input: a
right bracket, whitespace (the `\s*` forces the first non-space character to
be a left brace), then everything through the rightmost close. -/
def arrayMatchHere : List Char → Option (List Char)
  | [] => none
  | c :: r =>
    if c = '[' then
      let w := (r.takeWhile isPySpace).length
      match r.drop w with
      | d :: rest2 =>
        if d = lbrace then
          match lastCloseEnd rest2 with
          | some e => some ((c :: r).take (w + e + 2))
          | none => none
        else none
      | [] => none
    else none

/-- Leftmost match of `re.search` with the bracketed-array pattern under
`re.DOTALL`. -/
def searchArrayMatch : List Char → Option (List Char)
  | [] => none
  | c :: r =>
    match arrayMatchHere (c :: r) with
    | some m => some m
    | none => searchArrayMatch r

/-- Index of the first occurrence of `pat` (empty pattern matches at 0),
as `str.find` / a regex literal does. -/
def firstOccur (pat : List Char) : List Char → Option Nat
  | [] => if pat.isEmpty then some 0 else none
  | c :: r => if pat.isPrefixOf (c :: r) then some 0 else (firstOccur pat r).map (· + 1)

/-- The quoted literal `"number"` of the fallback question pattern. -/
def numLit : List Char := "\"number\"".data

/-- The quoted literal `"text"` of the fallback question pattern. -/
def textLit : List Char := "\"text\"".data

/-- The quoted literal `"options"` of the fallback question pattern. -/
def optsLit : List Char := "\"options\"".data

/-- Minimal end of the lazy chain of the fallback question pattern after a
left brace: the earliest occurrences of the three quoted literals in order,
then the first right brace; returns the length of the chain. -/
def chainEnd (s : List Char) : Option Nat :=
  match firstOccur numLit s with
  | none => none
  | some i1 =>
    let a1 := i1 + numLit.length
    match firstOccur textLit (s.drop a1) with
    | none => none
    | some i2 =>
      let a2 := a1 + i2 + textLit.length
      match firstOccur optsLit (s.drop a2) with
      | none => none
      | some i3 =>
        let a3 := a2 + i3 + optsLit.length
        match firstOccur [rbrace] (s.drop a3) with
        | none => none
        | some i4 => some (a3 + i4 + 1)

/-- Matches of `re.findall` with the fallback question pattern: each match
runs from a left brace through the lazy chain; if the chain cannot complete
for the current left brace it cannot complete for any later one (the later
search space is a suffix), so scanning stops. -/
def findallQObjsF : Nat → List Char → List (List Char)
  | 0, _ => []
  | _+1, [] => []
  | f+1, c :: r =>
    if c = lbrace then
      match chainEnd r with
      | some en => ((c :: r).take (en + 1)) :: findallQObjsF f ((c :: r).drop (en + 1))
      | none => []
    else findallQObjsF f r

/-- The fallback question-object matches of a string (fuel instantiated). -/
def findallQObjs (s : List Char) : List (List Char) := findallQObjsF (s.length + 1) s

/-- Source `extract_json_array`, exceptions explicit: remove code fences
and strip, search for a bracketed array and strictly parse it; any
exception there (either kind) is caught by the enclosing
`except Exception`, which answers the empty list; with no array match,
parse each fallback question match, skipping failures of any kind
(`except: continue`).  No branch propagates. -/
def extract_json_arrayE (raw : String) : Except String (List Json) :=
  match searchArrayMatch (pyStrip (stripTicks raw.data)) with
  | some m =>
    match json_loads (String.mk m) with
    | Except.ok (Json.arr xs) => Except.ok xs
    | Except.ok v => Except.ok [v]
    | Except.error _ => Except.ok []
  | none =>
    Except.ok ((findallQObjs (pyStrip (stripTicks raw.data))).filterMap (fun m =>
      match json_loads (String.mk m) with
      | Except.ok v => some v
      | Except.error _ => none))

/-- Source `extract_json_array` (value form).  The middle branch above
(`Except.ok v` for a non-array) is unreachable: every array match begins
with a bracket, so a successful strict parse is an array. -/
def extract_json_array (raw : String) : List Json :=
  match extract_json_arrayE raw with
  | Except.ok l => l
  | Except.error _ => []

/-- Source `chunk_text` at list level: slices of `n` characters in order.
In the source `range(0, len(text), max_len)` yields nothing for empty text;
the claims restrict to `n > 0` (Python raises `ValueError` on step 0, which
is outside every claim; the `n = 0` branch here only makes the model total).
Fuel `length + 1` suffices: every step drops at least one character. -/
def chunkListF : Nat → List Char → Nat → List (List Char)
  | 0, _, _ => []
  | _+1, [], _ => []
  | f+1, l, n => if n = 0 then [] else l.take n :: chunkListF f (l.drop n) n

/-- Source `chunk_text text max_len` (the generator materialised in order;
the default `max_len` in the source is 3500). -/
def chunk_text (text : String) (max_len : Nat) : List String :=
  (chunkListF (text.data.length + 1) text.data max_len).map String.mk

/-- Model of `str.find`: index of the first occurrence, `none` for the
source's `-1`. -/
def strFind (s pat : String) : Option Nat := firstOccur pat.data s.data

/-- Character slice `s[:n]` (list level, so that it evaluates for the large
window constants of the source). -/
def strTake (s : String) (n : Nat) : String := String.mk (s.data.take n)

/-- Character slice `s[n:]`. -/
def strDrop (s : String) (n : Nat) : String := String.mk (s.data.drop n)

/-- The chunk-size constant of the source. -/
def CHUNK_SIZE : Nat := 3000

/-- Anchor-chunking of the directions route: the window of `CHUNK_SIZE`
characters from the first occurrence of the literal marker, or the first
`CHUNK_SIZE` characters when the marker is absent. -/
def directions_chunk (full_text : String) : String :=
  match strFind full_text "DIRECTIONS" with
  | some i => strTake (strDrop full_text i) CHUNK_SIZE
  | none => strTake full_text CHUNK_SIZE

/-- Anchor-chunking of the questions route: the window of 4000 characters
from the first occurrence of the first-question marker; `none` when the
marker is absent (the route then returns its not-found error, there is no
fallback window). -/
def questions_chunk (full_text : String) : Option String :=
  match strFind full_text "1." with
  | some i => some (strTake (strDrop full_text i) 4000)
  | none => none

/-- The diagnostic preview of an analysed chunk (first 200 characters, with
an ellipsis when truncated). -/
def preview (chunk : String) : String :=
  if chunk.length > 200 then strTake chunk 200 ++ "..." else chunk

/-- The directions instruction of `parse_pdf_chunk_with_ollama`, with the
fragment embedded verbatim. -/
def directionsPrompt (text_chunk : String) : String :=
  "\nYou are an expert at extracting exam directions from CAT exam PDFs.\n\nANALYZE THIS TEXT AND EXTRACT ONLY DIRECTION BLOCKS (ignore questions):\n\n" ++ text_chunk ++ "\n\nCRITICAL RULES:\n1. Only extract blocks that start with \"DIRECTIONS\"\n2. Identify the question range it applies to (e.g., \"questions 1 to 5\")\n3. Return each direction block as a JSON object (not array) with this format:\n\x7b\n    \"type\": \"description\",\n    \"from\": 1,\n    \"to\": 5,\n    \"text\": \"...\"\n\x7d\n4. Use ONLY text found in the PDF\n5. Preserve original wording and formatting\n\nIMPORTANT: Return ONLY JSON objects. Do NOT include explanations.\n"

/-- The questions instruction of `parse_questions_with_ollama`, with the
fragment embedded verbatim. -/
def questionsPrompt (chunk : String) : String :=
  "\nTASK: Extract all numbered questions and their multiple choice options from the text below.\nFORMAT: Return ONLY valid JSON array, no other text.\n\nINSTRUCTIONS:\n1. Find all questions that start with numbers like \"1.\", \"2.\", etc.\n2. For each question, extract the question text (remove option numbers 1., 2., 3., 4.)\n3. Map the options to a, b, c, d (1. → a, 2. → b, 3. → c, 4. → d)\n4. Ignore any metadata, tables, or non-question content\n\nREQUIRED JSON FORMAT:\n[\n  \x7b\n    \"number\": 1,\n    \"text\": \"clean question text here\",\n    \"options\": \x7b\n      \"a\": \"option text from 1.\",\n      \"b\": \"option text from 2.\", \n      \"c\": \"option text from 3.\",\n      \"d\": \"option text from 4.\"\n    \x7d\n  \x7d\n]\n\nTEXT TO PROCESS:\n" ++ chunk ++ "\n\nIMPORTANT: Return ONLY JSON array.\n"

/-- The generative backend as an oracle: `ok` is the `response['response']`
text of a successful `generate` call, `error` any raised exception. -/
abbrev GenOracle := String → Except String String

/-- Source `parse_pdf_chunk_with_ollama`: on any exception of the model call
the function returns the empty string instead of propagating. -/
def parse_pdf_chunk_with_ollama (gen : GenOracle) (text_chunk : String) : String :=
  match gen (directionsPrompt text_chunk) with
  | Except.ok response => response
  | Except.error _ => ""

/-- Source `parse_questions_with_ollama`: on any exception of the model call
the function returns the empty string instead of propagating. -/
def parse_questions_with_ollama (gen : GenOracle) (chunk : String) : String :=
  match gen (questionsPrompt chunk) with
  | Except.ok response => response
  | Except.error _ => ""

/-- Outcome of a route, as it is distinguishable by the client: a success
payload with the record list and the chunk preview (HTTP 200), or an error
object with a message and a non-2xx status. -/
inductive RouteResult where
  | ok (records : List Json) (chunk_preview : String) : RouteResult
  | err (message : String) (status : Nat) : RouteResult

/-- Core of the `/directions-only` route from the point where the page
text has been acquired: anchor-chunk at the literal marker, ask the model,
normalise its output, and answer success; an exception escaping the
normaliser reaches the route's `except Exception` handler, which answers
the error message with status 500. -/
def pdf_directions_core (full_text : String) (gen : GenOracle) : RouteResult :=
  match extract_json_objectsE (parse_pdf_chunk_with_ollama gen (directions_chunk full_text)) with
  | Except.ok parsed => RouteResult.ok parsed (preview (directions_chunk full_text))
  | Except.error e => RouteResult.err e 500

/-- Core of the `/questions-only` route from the point where the page text
has been acquired: a missing first-question marker answers the dedicated
not-found error before any model work; otherwise ask the model, normalise,
and answer success (the questions normaliser never propagates, but the
route's handler is modelled all the same). -/
def pdf_questions_core (full_text : String) (gen : GenOracle) : RouteResult :=
  match questions_chunk full_text with
  | none => RouteResult.err "No questions found in PDF" 404
  | some chunk =>
    match extract_json_arrayE (parse_questions_with_ollama gen chunk) with
    | Except.ok parsed => RouteResult.ok parsed (preview chunk)
    | Except.error e => RouteResult.err e 500

/-- Field lookup on a parsed JSON dict. -/
def getField (o : Json) (k : String) : Option Json :=
  match o with
  | Json.obj kvs => (kvs.find? (fun p => p.1 = k)).map (fun p => p.2)
  | _ => none

/-- The spec's §3 DirectionBlock schema, written from the spec's words for
refinement comparison against what the code returns: the fixed literal
type, integer bounds `0 ≤ from ≤ to`, and non-empty text. -/
def DirectionBlockValid (o : Json) : Bool :=
  match getField o "type", getField o "from", getField o "to", getField o "text" with
  | some (Json.str ty), some (Json.int a), some (Json.int b), some (Json.str tx) =>
    ty = "description" && decide (0 ≤ a) && decide (a ≤ b) && tx ≠ ""
  | _, _, _, _ => false

/-- Split into lines at newline characters (list level; an empty input is
one empty line, as `str.split` gives). -/
def splitLinesL : List Char → List (List Char)
  | [] => [[]]
  | c :: r =>
    let rest := splitLinesL r
    if c = '\n' then [] :: rest
    else
      match rest with
      | h :: t => (c :: h) :: t
      | [] => [[c]]

/-- Split a string into lines. -/
def splitLines (s : String) : List String := (splitLinesL s.data).map String.mk

/-- Strip surrounding ASCII whitespace from a string (kernel-reducible
counterpart of `str.strip`). -/
def trimS (s : String) : String := String.mk (pyStrip s.data)

/-- A recognised question of the rule-based path. -/
structure Question where
  number : Nat
  text : String
  options : List (Char × String)

/-- Modelled from the spec: the Pattern Extractor is absent from
`src/app.py` (only the model-assisted path exists there); §4.2 says a
question begins at a numeric marker of the form `Q.<number>)`.  This reads
that marker off the head of a line, returning the number and the remainder
of the line. -/
def qMarker (line : String) : Option (Nat × String) :=
  match line.data with
  | 'Q' :: '.' :: r =>
    if (r.takeWhile Char.isDigit).isEmpty then none
    else
      match r.dropWhile Char.isDigit with
      | ')' :: r2 => some (digitsVal (r.takeWhile Char.isDigit), String.mk r2)
      | _ => none
  | _ => none

/-- Modelled from the spec: an option line `<letter>) <text>` of §4.2
(Pattern Extractor absent from `src/app.py`), for one expected letter. -/
def optLine (c : Char) (line : String) : Option String :=
  match line.data with
  | d :: ')' :: r => if d = c then some (String.mk (pyStrip r)) else none
  | _ => none

/-- Modelled from the spec: options are recognised line by line for
consecutive letters starting at the given one; recognition stops at the
first line that is not the expected option (end of block or next marker). -/
def collectOpts (c : Char) : List String → List (Char × String)
  | [] => []
  | l :: rest =>
    match optLine c l with
    | some t => (c, t) :: collectOpts (Char.ofNat (c.toNat + 1)) rest
    | none => []

/-- A line that starts the option block (an `a)`-style marker). -/
def isOptHead (l : String) : Bool :=
  match l.data with
  | 'a' :: ')' :: _ => true
  | _ => false

/-- Modelled from the spec: the three structural pieces of a question block
of §4.2 (Pattern Extractor absent from `src/app.py`): the numeric marker's
number, the body (everything up to the line that starts the option block,
trimmed), and the consecutively-lettered options from `a`. -/
def blockCore (block : String) : Option (Nat × String × List (Char × String)) :=
  match splitLines block with
  | [] => none
  | first :: rest =>
    match qMarker first with
    | none => none
    | some (n, bodyHead) =>
      let p := rest.span (fun l => !(isOptHead l))
      some (n, trimS (String.intercalate "\n" (bodyHead :: p.1)), collectOpts 'a' p.2)

/-- Modelled from the spec: a question block is accepted only with a
non-empty body and at least two recognised options (Pattern Extractor
absent from `src/app.py`; acceptance rule of §4.2). -/
def parseQuestionBlock (block : String) : Option Question :=
  match blockCore block with
  | none => none
  | some (n, body, opts) =>
    if body ≠ "" ∧ 2 ≤ opts.length then some ⟨n, body, opts⟩ else none

def segType : List Char := ("\"type\": \"description\",").data

def segText : List Char := ("\"text\": \"").data

/-- Characters on which the normalizer's slicing artifacts cannot fire: a
plain JSON string character that is neither a right brace (which would cut
the lazy brace-pair match) nor a backtick (which could form a code fence
removed by the substitution step). -/
def plainChar (c : Char) : Bool := strCharOk c && c ≠ rbrace && c ≠ backq

/-- The deeply nested candidate of the RecursionError counterexample:
the characters of `'\x7b"a": ' + '['*2000 + '1' + ']'*2000 + '\x7d'`. -/
def deepNestData : List Char :=
  lbrace :: '"' :: 'a' :: '"' :: ':' :: ' ' ::
    (List.replicate 2000 '[' ++ ('1' :: (List.replicate 2000 ']' ++ [rbrace])))

/-- The deeply nested counterexample input as a string. -/
def deepNest : String := String.mk deepNestData

/-- The ASCII digit character of a digit value. -/
def digitChar (d : Nat) : Char := Char.ofNat (48 + d)

/-- Decimal rendering of a natural number, as a JSON integer literal
(most significant digit first; zero renders as the single digit 0). -/
def natChars (n : Nat) : List Char :=
  if n = 0 then ['0'] else ((Nat.digits 10 n).map digitChar).reverse

/-- The rendered key of the from field. -/
def segFrom2 : List Char := ("\"from\": ").data

/-- The rendered key of the to field. -/
def segTo2 : List Char := ("\"to\": ").data

/-- Characters of a rendered DirectionBlock between its braces. -/
def dirInner (a b : Nat) (t : List Char) : List Char :=
  segType ++ (' ' :: (segFrom2 ++ (natChars a ++ (',' :: (' ' :: (segTo2
    ++ (natChars b ++ (',' :: (' ' :: (segText ++ (t ++ ['"'])))))))))))

/-- A strictly valid rendered DirectionBlock object
(canonical rendering: quoted keys, comma-space separators, no repairs needed). -/
def dirObjData2 (a b : Nat) (t : List Char) : List Char :=
  lbrace :: (dirInner a b t ++ [rbrace])

/-- The parsed record a rendered DirectionBlock encodes. -/
def dirJson (a b : Nat) (t : List Char) : Json :=
  Json.obj [("type", Json.str "description"), ("from", Json.int a),
    ("to", Json.int b), ("text", Json.str (String.mk t))]

/-- A stream of rendered DirectionBlock objects, one per line (the
directions-only response shape: independent top-level objects in free text). -/
def dirStream : List (Nat × Nat × List Char) → List Char
  | [] => []
  | r :: rs => dirObjData2 r.1 r.2.1 r.2.2 ++ ('\n' :: dirStream rs)

/-- The stream of rendered DirectionBlock objects as a string. -/
def dirStreamStr (rs : List (Nat × Nat × List Char)) : String := String.mk (dirStream rs)

/-- The rendered key of the number field. -/
def segNum2 : List Char := ("\"number\": ").data

/-- The rendered key of the options field. -/
def segOpts2 : List Char := ("\"options\": ").data

/-- A rendered option entry: quoted key, colon, quoted string value. -/
def optPair (p : List Char × List Char) : List Char :=
  '"' :: (p.1 ++ ('"' :: ':' :: ' ' :: '"' :: (p.2 ++ ['"'])))

/-- Rendered continuation of an options map: comma-space then the next entry. -/
def optsTail : List (List Char × List Char) → List Char
  | [] => []
  | p :: ps => ',' :: ' ' :: (optPair p ++ optsTail ps)

/-- Characters of a rendered options map between its braces. -/
def optsInner : List (List Char × List Char) → List Char
  | [] => []
  | p :: ps => optPair p ++ optsTail ps

/-- A rendered options object (possibly empty map). -/
def optsObjData (ps : List (List Char × List Char)) : List Char :=
  lbrace :: (optsInner ps ++ [rbrace])

/-- The parsed key/value an option entry encodes. -/
def pairJson (p : List Char × List Char) : String × Json :=
  (String.mk p.1, Json.str (String.mk p.2))

/-- Characters of a rendered question record between its braces. -/
def qInnerData (n : Nat) (t : List Char) (ps : List (List Char × List Char)) : List Char :=
  segNum2 ++ (natChars n ++ (',' :: (' ' :: (segText ++ (t ++ '"' :: ',' ::
    (' ' :: (segOpts2 ++ (optsObjData ps ++ [rbrace]))))))))

/-- A strictly valid rendered question record (number, text, options). -/
def qObjData2 (n : Nat) (t : List Char) (ps : List (List Char × List Char)) : List Char :=
  lbrace :: qInnerData n t ps

/-- The parsed record a rendered question record encodes. -/
def qJson (n : Nat) (t : List Char) (ps : List (List Char × List Char)) : Json :=
  Json.obj [("number", Json.int n), ("text", Json.str (String.mk t)),
    ("options", Json.obj (ps.map pairJson))]

/-- Rendered continuation of a question array: comma-space then the next record. -/
def qTail : List (Nat × List Char × List (List Char × List Char)) → List Char
  | [] => []
  | q :: qs => ',' :: ' ' :: (qObjData2 q.1 q.2.1 q.2.2 ++ qTail qs)

/-- A strictly valid rendered JSON array of question records. -/
def qArrData : List (Nat × List Char × List (List Char × List Char)) → List Char
  | [] => '[' :: [']']
  | q :: qs => '[' :: (qObjData2 q.1 q.2.1 q.2.2 ++ (qTail qs ++ [']']))

/-- Fuel budget sufficient for parsing a rendered question list (a coarse
per-record bound used only in the fuel ledgers). -/
def qCost : List (Nat × List Char × List (List Char × List Char)) → Nat
  | [] => 0
  | q :: qs => q.2.2.length + 8 + qCost qs

/-- The empty chunk list of an empty input, at any fuel. -/
theorem chunkListF_nil (f n : Nat) : chunkListF f [] n = [] := by
  cases f <;> rfl

/-- Concatenating the chunks reproduces the input (list level). -/
theorem chunkListF_flatten (n : Nat) (hn : 0 < n) :
    ∀ (f : Nat) (l : List Char), l.length < f → (chunkListF f l n).flatten = l := by
  intro f
  induction f with
  | zero => intro l h; exact absurd h (by omega)
  | succ f ih =>
    intro l h
    cases l with
    | nil => simp [chunkListF]
    | cons c r =>
      simp only [chunkListF, if_neg (Nat.pos_iff_ne_zero.mp hn)]
      have hlen : (List.drop n (c :: r)).length < f := by
        simp only [List.length_drop, List.length_cons]
        simp only [List.length_cons] at h
        omega
      rw [List.flatten_cons, ih _ hlen, List.take_append_drop]

/-- Every chunk is at most `n` characters (list level). -/
theorem chunkListF_len_le (n : Nat) :
    ∀ (f : Nat) (l : List Char), ∀ c ∈ chunkListF f l n, c.length ≤ n := by
  intro f
  induction f with
  | zero => intro l c hc; simp [chunkListF] at hc
  | succ f ih =>
    intro l c hc
    cases l with
    | nil => simp [chunkListF] at hc
    | cons a r =>
      by_cases hn : n = 0
      · simp [chunkListF, hn] at hc
      · simp only [chunkListF, if_neg hn, List.mem_cons] at hc
        rcases hc with hc | hc
        · subst hc
          simp [List.length_take]
        · exact ih _ _ hc

/-- Every chunk except possibly the last is exactly `n` characters (list
level). -/
theorem chunkListF_full (n : Nat) (hn : 0 < n) :
    ∀ (f : Nat) (l : List Char) (i : Nat), l.length < f →
      i + 1 < (chunkListF f l n).length → ((chunkListF f l n).getD i []).length = n := by
  intro f
  induction f with
  | zero => intro l i h _; exact absurd h (by omega)
  | succ f ih =>
    intro l i h hi
    cases l with
    | nil => rw [chunkListF_nil] at hi; simp at hi
    | cons a r =>
      simp only [chunkListF, if_neg (Nat.pos_iff_ne_zero.mp hn)] at hi ⊢
      cases i with
      | zero =>
        simp only [List.length_cons] at hi
        have hne : chunkListF f (List.drop n (a :: r)) n ≠ [] := by
          intro hnil
          rw [hnil] at hi
          simp at hi
        have hdrop : List.drop n (a :: r) ≠ [] := by
          intro hnil
          rw [hnil, chunkListF_nil] at hne
          exact hne rfl
        have hlong : n < (a :: r).length := by
          by_contra hle
          exact hdrop (List.drop_eq_nil_of_le (by omega))
        simp only [List.length_cons] at hlong
        simp only [List.getD_cons_zero, List.length_take, List.length_cons]
        omega
      | succ j =>
        have hlen : (List.drop n (a :: r)).length < f := by
          simp only [List.length_drop, List.length_cons]
          simp only [List.length_cons] at h
          omega
        rw [List.getD_cons_succ]
        refine ih (List.drop n (a :: r)) j hlen ?_
        simp only [List.length_cons] at hi
        omega

/-- Folding string concatenation over the wrapped chunks is the wrapped
concatenation. -/
theorem foldr_append_mk : ∀ (L : List (List Char)),
    (L.map String.mk).foldr (· ++ ·) "" = String.mk L.flatten := by
  intro L
  induction L with
  | nil => rfl
  | cons a t ih =>
    simp only [List.map_cons, List.foldr_cons, ih, List.flatten_cons]
    rfl

/-- Indexing the wrapped chunks is wrapping the indexed chunk. -/
theorem mapMk_getD : ∀ (L : List (List Char)) (i : Nat),
    (L.map String.mk).getD i "" = String.mk (L.getD i []) := by
  intro L
  induction L with
  | nil => intro i; cases i <;> rfl
  | cons a t ih => intro i; cases i with
    | zero => rfl
    | succ j =>
      simp only [List.map_cons, List.getD_cons_succ]
      exact ih j

/-- C2: for every text `T` and chunk size `n > 0`, the chunker yields a
finite list of fragments whose in-order concatenation is exactly `T`
(hence the fragments are non-overlapping and cover `T` once), every
fragment has length at most `n`, and every fragment except possibly the
last has length exactly `n`. -/
theorem c2_chunker (T : String) (n : Nat) (hn : 0 < n) :
    (chunk_text T n).foldr (· ++ ·) "" = T ∧
    (∀ c ∈ chunk_text T n, c.length ≤ n) ∧
    (∀ i, i + 1 < (chunk_text T n).length →
      ((chunk_text T n).getD i "").length = n) := by
  refine ⟨?_, ?_, ?_⟩
  · rw [chunk_text, foldr_append_mk, chunkListF_flatten n hn _ _ (by omega)]
  · intro c hc
    rw [chunk_text, List.mem_map] at hc
    obtain ⟨a, ha, rfl⟩ := hc
    exact chunkListF_len_le n _ _ a ha
  · intro i hi
    rw [chunk_text] at hi ⊢
    rw [List.length_map] at hi
    rw [mapMk_getD]
    exact chunkListF_full n hn _ _ i (by omega) hi

/-- C2 witness: the chunker at `T = "abcde"`, `n = 2`. -/
theorem c2_chunker_witness :
    0 < 2 ∧ (chunk_text "abcde" 2).foldr (· ++ ·) "" = "abcde" :=
  ⟨by decide, (c2_chunker "abcde" 2 (by decide)).1⟩

/-- C1 counterexample: on the documented malformed model output (unquoted
keys, trailing comma) the directions normaliser returns no record at all,
not the repaired record the claim promises: the source applies no syntactic
repair, so the single brace-pair candidate fails the strict parse and is
dropped. -/
theorem c1_counterexample :
    extract_json_objects "\x7btype: \"description\", from:1, to:5, text:\"x\",\x7d" = [] ∧
    ([] : List Json) ≠ [Json.obj [("type", Json.str "description"), ("from", Json.int 1),
      ("to", Json.int 5), ("text", Json.str "x")]] :=
  ⟨rfl, by simp⟩

/-- C1 amended: on the documented malformed input `extract_json_objects`
finds the one brace-pair candidate, its strict parse fails, no repair is
attempted, and the candidate is dropped, so no record is returned. -/
theorem c1_amended :
    findallBraces ("\x7btype: \"description\", from:1, to:5, text:\"x\",\x7d").data
      = [("\x7btype: \"description\", from:1, to:5, text:\"x\",\x7d").data] ∧
    json_loads "\x7btype: \"description\", from:1, to:5, text:\"x\",\x7d" = Except.error JErr.decode ∧
    extract_json_objects "\x7btype: \"description\", from:1, to:5, text:\"x\",\x7d" = [] :=
  ⟨rfl, rfl, rfl⟩

/-- C3 counterexample: on text without the first-question marker the
questions path produces no fallback window at all: anchor-chunking yields
`none` — the route then answers its not-found error — rather than the first
window-many characters of the text, contradicting the claim's "for any
marker presence/absence combination". -/
theorem c3_counterexample :
    questions_chunk "hello world" = none ∧
    (none : Option String) ≠ some (strTake "hello world" 4000) :=
  ⟨rfl, by simp⟩

/-- C3 amended: the directions path anchors the window at the marker's
first occurrence and falls back to the first `CHUNK_SIZE` characters when
the marker is absent; the questions path anchors the 4000-character window
at the marker's first occurrence when present, but on absence it produces
no chunk (the route returns the not-found error) instead of a fallback
window.  Neither path raises: both are total functions of the text. -/
theorem c3_amended (t : String) :
    (∀ i, strFind t "DIRECTIONS" = some i →
      directions_chunk t = strTake (strDrop t i) CHUNK_SIZE) ∧
    (strFind t "DIRECTIONS" = none → directions_chunk t = strTake t CHUNK_SIZE) ∧
    (∀ i, strFind t "1." = some i →
      questions_chunk t = some (strTake (strDrop t i) 4000)) ∧
    (strFind t "1." = none → questions_chunk t = none) := by
  refine ⟨?_, ?_, ?_, ?_⟩
  · intro i h; unfold directions_chunk; rw [h]
  · intro h; unfold directions_chunk; rw [h]
  · intro i h; unfold questions_chunk; rw [h]
  · intro h; unfold questions_chunk; rw [h]

/-- C3 amended witness: a marker hit on the directions path and a marker
miss on the questions path. -/
theorem c3_amended_witness :
    directions_chunk "xx DIRECTIONS yy" = strTake (strDrop "xx DIRECTIONS yy" 3) CHUNK_SIZE ∧
    questions_chunk "some plain text" = none :=
  ⟨(c3_amended "xx DIRECTIONS yy").1 3 rfl, (c3_amended "some plain text").2.2.2 rfl⟩

/-- C4 worst case: the empty sequence, reached already on empty input. -/
theorem c4_worst_case_empty :
    extract_json_objects "" = [] ∧ extract_json_array "" = [] :=
  ⟨rfl, rfl⟩

/-- C7: a source text with no occurrence of the first-question marker makes
the questions route answer the dedicated not-found error object — message
"No questions found in PDF", status 404 — for every behaviour of the model
oracle, and that outcome is distinguishable from every success response
(in particular from a success carrying an empty question list). -/
theorem c7_no_marker_not_found (full_text : String) (gen : GenOracle)
    (h : strFind full_text "1." = none) :
    pdf_questions_core full_text gen = RouteResult.err "No questions found in PDF" 404 ∧
    ∀ qs p, RouteResult.err "No questions found in PDF" 404 ≠ RouteResult.ok qs p := by
  constructor
  · have hq : questions_chunk full_text = none := by unfold questions_chunk; rw [h]
    unfold pdf_questions_core
    rw [hq]
  · intro qs p hcon
    exact RouteResult.noConfusion hcon

/-- C7 witness: concrete marker-free text, concrete oracle. -/
theorem c7_witness :
    strFind "some plain text" "1." = none ∧
    pdf_questions_core "some plain text" (fun _ => Except.ok "zzz")
      = RouteResult.err "No questions found in PDF" 404 :=
  ⟨rfl, (c7_no_marker_not_found "some plain text" (fun _ => Except.ok "zzz") rfl).1⟩

/-- C5 counterexample: a candidate violating every §3 value constraint
(type not the fixed literal, from greater than to, empty text) is returned
anyway: the source checks only that the four keys are present. -/
theorem c5_counterexample :
    extract_json_objects "\x7b\"type\": \"x\", \"from\": 5, \"to\": 1, \"text\": \"\"\x7d"
      = [Json.obj [("type", Json.str "x"), ("from", Json.int 5),
          ("to", Json.int 1), ("text", Json.str "")]] ∧
    DirectionBlockValid (Json.obj [("type", Json.str "x"), ("from", Json.int 5),
      ("to", Json.int 1), ("text", Json.str "")]) = false :=
  ⟨rfl, rfl⟩

/-- Every record the directions loop emits with an `ok` outcome either was
already accumulated or passed the four-key check. -/
theorem objLoop_sound : ∀ (ms : List (List Char)) (acc res : List Json),
    objLoop ms acc = Except.ok res → ∀ o ∈ res, o ∈ acc ∨
      (isDict o && hasKey o "type" && hasKey o "from" && hasKey o "to"
        && hasKey o "text") = true := by
  intro ms
  induction ms with
  | nil =>
    intro acc res h o ho
    unfold objLoop at h
    cases h
    exact Or.inl ho
  | cons m ms ih =>
    intro acc res h o ho
    unfold objLoop at h
    split at h
    · rename_i v heq
      rcases ih _ _ h o ho with hmem | hchk
      · by_cases hc : (isDict v && hasKey v "type" && hasKey v "from" && hasKey v "to"
            && hasKey v "text") = true
        · rw [if_pos hc] at hmem
          rcases List.mem_append.mp hmem with h1 | h1
          · exact Or.inl h1
          · simp only [List.mem_singleton] at h1
            subst h1
            exact Or.inr hc
        · rw [if_neg hc] at hmem
          exact Or.inl hmem
      · exact Or.inr hchk
    · exact ih _ _ h o ho
    · cases h

/-- C5 amended: every record returned by the directions normaliser is a
dict that has the four required keys present; nothing more is guaranteed —
the field types and value constraints of §3 are not checked. -/
theorem c5_amended (raw : String) (o : Json) (ho : o ∈ extract_json_objects raw) :
    isDict o = true ∧ hasKey o "type" = true ∧ hasKey o "from" = true ∧
    hasKey o "to" = true ∧ hasKey o "text" = true := by
  unfold extract_json_objects at ho
  split at ho
  · rename_i l heq
    rcases objLoop_sound (findallBraces raw.data) [] l heq o ho with hmem | hchk
    · simp at hmem
    · simp only [Bool.and_eq_true] at hchk
      exact ⟨hchk.1.1.1.1, hchk.1.1.1.2, hchk.1.1.2, hchk.1.2, hchk.2⟩
  · simp at ho

/-- C5 amended witness: a well-formed record of the concrete valid input. -/
theorem c5_amended_witness :
    (Json.obj [("type", Json.str "description"), ("from", Json.int 1),
      ("to", Json.int 5), ("text", Json.str "x")])
      ∈ extract_json_objects "\x7b\"type\": \"description\", \"from\": 1, \"to\": 5, \"text\": \"x\"\x7d" ∧
    isDict (Json.obj [("type", Json.str "description"), ("from", Json.int 1),
      ("to", Json.int 5), ("text", Json.str "x")]) = true := by
  have hmem : (Json.obj [("type", Json.str "description"), ("from", Json.int 1),
      ("to", Json.int 5), ("text", Json.str "x")])
      ∈ extract_json_objects "\x7b\"type\": \"description\", \"from\": 1, \"to\": 5, \"text\": \"x\"\x7d" := by
    rw [show extract_json_objects "\x7b\"type\": \"description\", \"from\": 1, \"to\": 5, \"text\": \"x\"\x7d"
      = [Json.obj [("type", Json.str "description"), ("from", Json.int 1),
          ("to", Json.int 5), ("text", Json.str "x")]] from rfl]
    exact List.mem_singleton_self _
  exact ⟨hmem, (c5_amended _ _ hmem).1⟩

/-- C6 counterexample: with prose before and after a JSON array, the
questions normaliser does slice out the array content, but it performs no
per-element validation: the element lacking the required `text` and
`options` fields is kept, not dropped. -/
theorem c6_counterexample :
    extract_json_array "Here you go: [ \x7b\"number\": 1\x7d ] thanks"
      = [Json.obj [("number", Json.int 1)]] ∧
    hasKey (Json.obj [("number", Json.int 1)]) "text" = false ∧
    hasKey (Json.obj [("number", Json.int 1)]) "options" = false :=
  ⟨rfl, rfl, rfl⟩

/-- C6 amended: on the array path the questions normaliser extracts the
bracketed array region and returns its strict-parse elements as they are,
with no per-element required-field validation (required-field filtering
exists only in the fallback scan used when no array region is found). -/
theorem c6_amended (raw : String) (m : List Char) (xs : List Json)
    (hm : searchArrayMatch (pyStrip (stripTicks raw.data)) = some m)
    (hp : json_loads (String.mk m) = Except.ok (Json.arr xs)) :
    extract_json_array raw = xs := by
  simp only [extract_json_array, extract_json_arrayE, hm, hp]

/-- C6 amended witness: prose around a complete array; the elements come
back verbatim. -/
theorem c6_amended_witness :
    extract_json_array "Here is [ \x7b\"number\": 2, \"text\": \"q\", \"options\": \x7b\"a\": \"u\"\x7d\x7d ] end"
      = [Json.obj [("number", Json.int 2), ("text", Json.str "q"),
          ("options", Json.obj [("a", Json.str "u")])]] :=
  c6_amended _ ("[ \x7b\"number\": 2, \"text\": \"q\", \"options\": \x7b\"a\": \"u\"\x7d\x7d ]").data
    _ rfl rfl

/-- C8: when the single generative call of a request raises, the wrapper
returns the empty string instead of propagating, and the enclosing route
completes as a success response carrying the empty record collection — on
the directions path unconditionally, on the questions path whenever the
marker was found (only then is the model called at all). -/
theorem c8_model_failure_degrades (full_text : String) (gen : GenOracle) (e : String) :
    (gen (directionsPrompt (directions_chunk full_text)) = Except.error e →
      parse_pdf_chunk_with_ollama gen (directions_chunk full_text) = "" ∧
      pdf_directions_core full_text gen
        = RouteResult.ok [] (preview (directions_chunk full_text))) ∧
    (∀ chunk, questions_chunk full_text = some chunk →
      gen (questionsPrompt chunk) = Except.error e →
      parse_questions_with_ollama gen chunk = "" ∧
      pdf_questions_core full_text gen = RouteResult.ok [] (preview chunk)) := by
  constructor
  · intro h
    constructor
    · unfold parse_pdf_chunk_with_ollama
      rw [h]
    · simp only [pdf_directions_core, parse_pdf_chunk_with_ollama, h]
      rfl
  · intro chunk hc h
    constructor
    · unfold parse_questions_with_ollama
      rw [h]
    · simp only [pdf_questions_core, parse_questions_with_ollama, hc, h]
      rfl

/-- C8 witness: a failing oracle on both routes, concrete texts. -/
theorem c8_witness :
    pdf_directions_core "tiny" (fun _ => Except.error "boom") = RouteResult.ok [] "tiny" ∧
    pdf_questions_core "1. abc" (fun _ => Except.error "boom") = RouteResult.ok [] "1. abc" :=
  ⟨((c8_model_failure_degrades "tiny" (fun _ => Except.error "boom") "boom").1 rfl).2,
   ((c8_model_failure_degrades "1. abc" (fun _ => Except.error "boom") "boom").2 "1. abc" rfl rfl).2⟩

/-- C10 (Pattern Extractor modelled from the spec, §4.2): a question block
is accepted exactly when its pieces exist — the numeric marker (then
`blockCore` answers `some`), a non-empty body, and at least two
consecutively-lettered options beginning at `a`; and a block whose option
list has exactly one recognised option is rejected. -/
theorem c10_pattern_accept_iff (block : String) :
    ((∃ q, parseQuestionBlock block = some q) ↔
      (∃ n body opts, blockCore block = some (n, body, opts) ∧
        body ≠ "" ∧ 2 ≤ opts.length)) ∧
    (∀ n body opts, blockCore block = some (n, body, opts) →
      opts.length = 1 → parseQuestionBlock block = none) := by
  constructor
  · constructor
    · intro ⟨q, hq⟩
      unfold parseQuestionBlock at hq
      split at hq
      · cases hq
      · next n body opts heq =>
        split at hq
        · next hcond => exact ⟨n, body, opts, heq, hcond.1, hcond.2⟩
        · cases hq
    · intro ⟨n, body, opts, heq, h1, h2⟩
      unfold parseQuestionBlock
      simp only [heq]
      rw [if_pos ⟨h1, h2⟩]
      exact ⟨_, rfl⟩
  · intro n body opts heq hone
    unfold parseQuestionBlock
    simp only [heq]
    rw [if_neg]
    intro hcond
    omega

/-- C10 witness: a block with a marker, non-empty body and a single
recognised option is rejected. -/
theorem c10_witness :
    parseQuestionBlock "Q.1) What?\na) 3" = none :=
  (c10_pattern_accept_iff "Q.1) What?\na) 3").2 1 "What?" [('a', "3")] rfl rfl

theorem parseStringBody_concat (l r : List Char)
    (hl : ∀ c ∈ l, strCharOk c = true) :
    parseStringBody (l ++ '"' :: r) = some (l, r) := by
  induction l with
  | nil => simp +decide [parseStringBody.eq_def]
  | cons a as ih =>
    have ha : strCharOk a = true := hl a (List.mem_cons_self a as)
    have hcomp : (a ≠ '"' ∧ a ≠ '\\') ∧ 32 ≤ a.toNat := by
      simpa [strCharOk, Bool.and_eq_true, decide_eq_true_eq] using ha
    rw [List.cons_append, parseStringBody.eq_def]
    simp [hcomp.1.1, hcomp.1.2, ha, ih (fun c hc => hl c (List.mem_cons_of_mem _ hc))]

theorem psb_textKey (R : List Char) :
    parseStringBody ('t' :: 'e' :: 'x' :: 't' :: '"' :: R) = some (['t', 'e', 'x', 't'], R) := by
  simp +decide [parseStringBody.eq_def, escChar, strCharOk]

theorem findallBracesF_nil (f : Nat) : findallBracesF f [] = [] := by cases f <;> rfl

theorem splitAtRbrace_append (l r : List Char) (hl : ∀ c ∈ l, c ≠ rbrace) :
    splitAtRbrace (l ++ rbrace :: r) = some (l ++ [rbrace], r) := by
  induction l with
  | nil => simp [splitAtRbrace]
  | cons a as ih =>
    have ha : a ≠ rbrace := hl a (List.mem_cons_self a as)
    simp [splitAtRbrace, ha, ih (fun c hc => hl c (List.mem_cons_of_mem _ hc))]

theorem stripTicksF_id : ∀ (f : Nat) (s : List Char), s.length < f →
    (∀ c ∈ s, c ≠ backq) → stripTicksF f s = s := by
  intro f
  induction f with
  | zero => intro s h _; exact absurd h (by omega)
  | succ f ih =>
    intro s h hb
    cases s with
    | nil => rfl
    | cons c r =>
      have hc : c ≠ backq := hb c (List.mem_cons_self c r)
      have hb1 : (backq == c) = false := beq_eq_false_iff_ne.mpr (fun h2 => hc h2.symm)
      have h1 : tickJson.isPrefixOf (c :: r) = false := by
        rw [show tickJson = backq :: ("``json").data from rfl]
        simp [List.isPrefixOf, hb1]
      have h2 : tickOnly.isPrefixOf (c :: r) = false := by
        rw [show tickOnly = backq :: ("``").data from rfl]
        simp [List.isPrefixOf, hb1]
      rw [stripTicksF]
      simp only [h1, h2, Bool.false_eq_true, if_false]
      rw [ih r (by simp at h; omega) (fun d hd => hb d (List.mem_cons_of_mem _ hd))]

theorem stripTicks_id (s : List Char) (hb : ∀ c ∈ s, c ≠ backq) : stripTicks s = s :=
  stripTicksF_id (s.length + 1) s (by omega) hb

theorem pyStrip_ends (c d : Char) (m : List Char)
    (hc : isPySpace c = false) (hd : isPySpace d = false) :
    pyStrip (c :: (m ++ [d])) = c :: (m ++ [d]) := by
  unfold pyStrip
  rw [List.dropWhile_cons]
  simp only [hc, Bool.false_eq_true, if_false]
  rw [show (c :: (m ++ [d])).reverse = d :: (m.reverse ++ [c]) by simp]
  rw [List.dropWhile_cons]
  simp only [hd, Bool.false_eq_true, if_false]
  simp

theorem lastCloseEnd_append (A B : List Char) (e : Nat) (hB : lastCloseEnd B = some e) :
    lastCloseEnd (A ++ B) = some (A.length + e) := by
  induction A with
  | nil => simpa using hB
  | cons a as ih =>
    rw [List.cons_append, lastCloseEnd, ih]
    simp
    omega

theorem digitChar_props (d : Nat) (h : d < 10) :
    (digitChar d).isDigit = true ∧ strCharOk (digitChar d) = true ∧
    digitChar d ≠ rbrace ∧ digitChar d ≠ backq ∧
    isJsonWs (digitChar d) = false ∧ isPySpace (digitChar d) = false ∧
    digitChar d ≠ lbrace ∧ digitChar d ≠ '[' ∧ digitChar d ≠ ']' ∧ digitChar d ≠ '"' ∧
    digitChar d ≠ 't' ∧ digitChar d ≠ 'f' ∧ digitChar d ≠ 'n' ∧ digitChar d ≠ '-' := by
  interval_cases d <;> exact (by decide)

theorem digitChar_toNat (d : Nat) (h : d < 10) : (digitChar d).toNat - 48 = d := by
  interval_cases d <;> decide

theorem digitChar_eq_zero (d : Nat) (h : d < 10) : digitChar d = '0' ↔ d = 0 := by
  interval_cases d <;> decide

theorem natChars_mem (n : Nat) (c : Char) (hc : c ∈ natChars n) :
    ∃ d, d < 10 ∧ c = digitChar d := by
  unfold natChars at hc
  split at hc
  · simp at hc
    exact ⟨0, by omega, by rw [hc]; rfl⟩
  · simp only [List.mem_reverse, List.mem_map] at hc
    obtain ⟨d, hd, rfl⟩ := hc
    exact ⟨d, Nat.digits_lt_base (by omega) hd, rfl⟩

theorem natChars_spec (n : Nat) : ∃ d tl, natChars n = digitChar d :: tl ∧ d < 10 ∧
    (n ≠ 0 → d ≠ 0) ∧ (∀ c ∈ tl, ∃ e, e < 10 ∧ c = digitChar e) := by
  by_cases hn : n = 0
  · subst hn
    exact ⟨0, [], rfl, by omega, fun h => absurd rfl h, by simp⟩
  · obtain ⟨L, dl, hds⟩ := (Nat.digits 10 n).eq_nil_or_concat.resolve_left
      (Nat.digits_ne_nil_iff_ne_zero.mpr hn)
    rw [List.concat_eq_append] at hds
    have hlt : ∀ d ∈ Nat.digits 10 n, d < 10 := fun d hd => Nat.digits_lt_base (by omega) hd
    refine ⟨dl, ((L.map digitChar).reverse), ?_, ?_, ?_, ?_⟩
    · unfold natChars
      rw [if_neg hn, hds]
      simp
    · exact hlt dl (hds ▸ List.mem_concat_self L dl)
    · intro _
      have hgl := Nat.getLast_digit_ne_zero 10 hn
      have h9 : (Nat.digits 10 n).getLast? = some dl := by
        rw [hds]
        simp
      have h10 : (Nat.digits 10 n).getLast? = some ((Nat.digits 10 n).getLast
          (Nat.digits_ne_nil_iff_ne_zero.mpr hn)) := List.getLast?_eq_getLast _ _
      have hdl : dl = (Nat.digits 10 n).getLast (Nat.digits_ne_nil_iff_ne_zero.mpr hn) :=
        Option.some_injective _ (h9.symm.trans h10)
      exact hdl ▸ hgl
    · intro c hc
      simp only [List.mem_reverse, List.mem_map] at hc
      obtain ⟨e, he, rfl⟩ := hc
      exact ⟨e, hlt e (hds ▸ List.mem_append_left [dl] he), rfl⟩

theorem digitsVal_revmap : ∀ (ds : List Nat) (a : Nat), (∀ d ∈ ds, d < 10) →
    List.foldl (fun a c => a * 10 + (c.toNat - 48)) a ((ds.map digitChar).reverse)
      = a * 10 ^ ds.length + Nat.ofDigits 10 ds := by
  intro ds
  induction ds with
  | nil => intro a _; simp [Nat.ofDigits_nil]
  | cons d ds ih =>
    intro a hlt
    rw [List.map_cons, List.reverse_cons, List.foldl_append]
    rw [ih a (fun e he => hlt e (List.mem_cons_of_mem _ he))]
    simp only [List.foldl_cons, List.foldl_nil]
    rw [digitChar_toNat d (hlt d (List.mem_cons_self d ds))]
    rw [Nat.ofDigits_cons]
    simp only [List.length_cons, pow_succ]
    ring

theorem digitsVal_natChars (n : Nat) : digitsVal (natChars n) = n := by
  by_cases hn : n = 0
  · subst hn; rfl
  · unfold natChars digitsVal
    rw [if_neg hn]
    rw [digitsVal_revmap (Nat.digits 10 n) 0 (fun d hd => Nat.digits_lt_base (by omega) hd)]
    simp [Nat.ofDigits_digits]

theorem takeWhile_digit_append (tl : List Char) (c : Char) (r : List Char)
    (htl : ∀ x ∈ tl, x.isDigit = true) (hc : c.isDigit = false) :
    (tl ++ c :: r).takeWhile Char.isDigit = tl ∧
    (tl ++ c :: r).dropWhile Char.isDigit = c :: r := by
  induction tl with
  | nil => simp [List.takeWhile_cons, List.dropWhile_cons, hc]
  | cons a as ih =>
    have ha : a.isDigit = true := htl a (List.mem_cons_self a as)
    obtain ⟨h1, h2⟩ := ih (fun x hx => htl x (List.mem_cons_of_mem _ hx))
    simp [List.takeWhile_cons, List.dropWhile_cons, ha, h1, h2]

theorem parseUIntTok_natChars (a : Nat) (c : Char) (r : List Char) (hc : c.isDigit = false) :
    parseUIntTok (natChars a ++ c :: r) = some (a, c :: r) := by
  by_cases ha : a = 0
  · subst ha
    show parseUIntTok ('0' :: c :: r) = some (0, c :: r)
    rfl
  · obtain ⟨d0, tl, heq, hd0, hnz, htl⟩ := natChars_spec a
    have hp := digitChar_props d0 hd0
    have htl' : ∀ x ∈ tl, x.isDigit = true := by
      intro x hx
      obtain ⟨e, he, rfl⟩ := htl x hx
      exact (digitChar_props e he).1
    obtain ⟨htw, hdw⟩ := takeWhile_digit_append tl c r htl' hc
    rw [heq, List.cons_append]
    simp only [parseUIntTok]
    rw [if_neg ((digitChar_eq_zero d0 hd0).not.mpr (hnz ha))]
    rw [if_pos hp.1]
    rw [htw, hdw]
    have : digitsVal (digitChar d0 :: tl) = a := by
      rw [← heq]; exact digitsVal_natChars a
    rw [this]

theorem parseIntTok_natChars (a : Nat) (c : Char) (r : List Char) (hc : c.isDigit = false) :
    parseIntTok (natChars a ++ c :: r) = some ((a : Int), c :: r) := by
  obtain ⟨d0, tl, heq, hd0, -, -⟩ := natChars_spec a
  have hp := digitChar_props d0 hd0
  unfold parseIntTok
  rw [heq, List.cons_append]
  split
  · rename_i heq2
    exact absurd (List.cons_eq_cons.mp heq2).1 hp.2.2.2.2.2.2.2.2.2.2.2.2.2
  · rw [← List.cons_append, ← heq, parseUIntTok_natChars a c r hc]
    rfl

theorem dropWhile_ws_natChars (a : Nat) (X : List Char) :
    (natChars a ++ X).dropWhile isJsonWs = natChars a ++ X := by
  obtain ⟨d0, tl, heq, hd0, -, -⟩ := natChars_spec a
  rw [heq, List.cons_append, List.dropWhile_cons]
  simp [(digitChar_props d0 hd0).2.2.2.2.1]

theorem parseVal_natChars (f d : Nat) (a : Nat) (c : Char) (r : List Char)
    (hc : c.isDigit = false) :
    parseVal (f + 1) d (natChars a ++ c :: r) = Except.ok (Json.int (a : Int), c :: r) := by
  obtain ⟨d0, tl, heq, hd0, -, -⟩ := natChars_spec a
  obtain ⟨hdig, -, -, -, -, -, hlb, hlsq, -, hq, ht', hf', hn', hm'⟩ := digitChar_props d0 hd0
  rw [heq, List.cons_append]
  simp only [parseVal]
  rw [if_neg hlb, if_neg hlsq, if_neg hq, if_neg ht', if_neg hf', if_neg hn']
  have hcond : (decide (digitChar d0 = '-') || (digitChar d0).isDigit) = true := by
    rw [hdig]; simp
  rw [if_pos hcond]
  rw [← List.cons_append, ← heq, parseIntTok_natChars a c r hc]

theorem pvStart_type (f d : Nat) (X : List Char) :
    parseVal (f + 1) (d + 1) (lbrace :: (segType ++ X)) = parseMembers f d (segType ++ X) [] := by
  simp +decide [parseVal, segType, isJsonWs, List.dropWhile, List.cons_append]

theorem pmStep_type (f d : Nat) (X : List Char) (acc : List (String × Json)) :
    parseMembers (f + 2) d (segType ++ X) acc
      = parseMembers (f + 1) d (X.dropWhile isJsonWs) (acc ++ [("type", Json.str "description")]) := by
  simp +decide [segType, parseMembers, parseVal, parseStringBody.eq_def, isJsonWs,
    List.dropWhile, escChar, strCharOk, List.cons_append, List.nil_append]

theorem dwFrom2 (X : List Char) :
    List.dropWhile isJsonWs (' ' :: (segFrom2 ++ X)) = segFrom2 ++ X := by
  simp +decide [segFrom2, List.dropWhile, isJsonWs, List.cons_append]

theorem dwTo2 (X : List Char) :
    List.dropWhile isJsonWs (' ' :: (segTo2 ++ X)) = segTo2 ++ X := by
  simp +decide [segTo2, List.dropWhile, isJsonWs, List.cons_append]

theorem dwText (X : List Char) :
    List.dropWhile isJsonWs (' ' :: (segText ++ X)) = segText ++ X := by
  simp +decide [segText, List.dropWhile, isJsonWs, List.cons_append]

theorem pmStep_from2 (f d a : Nat) (X : List Char) (acc : List (String × Json)) :
    parseMembers (f + 2) d (segFrom2 ++ (natChars a ++ (',' :: X))) acc
      = parseMembers (f + 1) d (X.dropWhile isJsonWs) (acc ++ [("from", Json.int a)]) := by
  simp +decide [segFrom2, parseMembers, parseStringBody.eq_def, escChar, strCharOk, isJsonWs,
    List.dropWhile, List.cons_append, List.nil_append, dropWhile_ws_natChars,
    parseVal_natChars]

theorem pmStep_to2 (f d b : Nat) (X : List Char) (acc : List (String × Json)) :
    parseMembers (f + 2) d (segTo2 ++ (natChars b ++ (',' :: X))) acc
      = parseMembers (f + 1) d (X.dropWhile isJsonWs) (acc ++ [("to", Json.int b)]) := by
  simp +decide [segTo2, parseMembers, parseStringBody.eq_def, escChar, strCharOk, isJsonWs,
    List.dropWhile, List.cons_append, List.nil_append, dropWhile_ws_natChars,
    parseVal_natChars]

theorem pmStep_text_final2 (t : List Char) (ht : ∀ c ∈ t, strCharOk c = true)
    (f d : Nat) (acc : List (String × Json)) (rest : List Char) :
    parseMembers (f + 2) d (segText ++ (t ++ '"' :: rbrace :: rest)) acc
      = Except.ok (Json.obj (acc ++ [("text", Json.str (String.mk t))]), rest) := by
  have hpsb : parseStringBody (t ++ '"' :: rbrace :: rest) = some (t, rbrace :: rest) :=
    parseStringBody_concat t (rbrace :: rest) ht
  simp +decide [segText, parseMembers, parseVal, psb_textKey, isJsonWs, List.dropWhile,
    List.cons_append, List.nil_append, hpsb]

theorem parseVal_dirObj2 (a b : Nat) (t : List Char) (ht : ∀ c ∈ t, strCharOk c = true)
    (f d : Nat) (rest : List Char) :
    parseVal (f + 6) (d + 1) (dirObjData2 a b t ++ rest)
      = Except.ok (dirJson a b t, rest) := by
  have h0 : dirObjData2 a b t ++ rest
      = lbrace :: (segType ++ (' ' :: (segFrom2 ++ (natChars a ++ (',' :: (' ' :: (segTo2
          ++ (natChars b ++ (',' :: (' ' :: (segText ++ (t ++ '"' :: rbrace :: rest)))))))))))) := by
    simp [dirObjData2, dirInner, List.append_assoc]
  rw [h0]
  rw [show f + 6 = (f + 5) + 1 from rfl, pvStart_type]
  rw [show f + 5 = (f + 3) + 2 from rfl, pmStep_type]
  rw [dwFrom2, show (f + 3) + 1 = (f + 2) + 2 from rfl, pmStep_from2]
  rw [dwTo2, show (f + 2) + 1 = (f + 1) + 2 from rfl, pmStep_to2]
  rw [dwText, show (f + 1) + 1 = f + 2 from rfl, pmStep_text_final2 t ht]
  simp [dirJson]

theorem dirObjData2_length_pos (a b : Nat) (t : List Char) :
    2 ≤ (dirObjData2 a b t).length := by
  simp [dirObjData2]

theorem json_loads_dirObj2 (a b : Nat) (t : List Char) (ht : ∀ c ∈ t, strCharOk c = true) :
    json_loads (String.mk (dirObjData2 a b t)) = Except.ok (dirJson a b t) := by
  unfold json_loads
  have hd : (String.mk (dirObjData2 a b t)).data = dirObjData2 a b t := rfl
  have hdw : (dirObjData2 a b t).dropWhile isJsonWs = dirObjData2 a b t := by
    rw [show dirObjData2 a b t = lbrace :: (dirInner a b t ++ [rbrace]) from rfl]
    rw [List.dropWhile_cons]
    simp +decide []
  have hfuel : 2 * (dirObjData2 a b t).length + 2
      = (2 * (dirObjData2 a b t).length - 4) + 6 := by
    have := dirObjData2_length_pos a b t
    omega
  rw [hd, hdw, hfuel, show PY_RECURSION_LIMIT = 999 + 1 from rfl]
  rw [show dirObjData2 a b t = dirObjData2 a b t ++ [] from by simp]
  rw [parseVal_dirObj2 a b t ht _ 999]
  simp

theorem dirStream_cons (r : Nat × Nat × List Char) (rs : List (Nat × Nat × List Char)) :
    dirStream (r :: rs) = dirObjData2 r.1 r.2.1 r.2.2 ++ ('\n' :: dirStream rs) := by
  simp [dirStream]

theorem dirInner_no_rbrace (a b : Nat) (t : List Char) (hrb : ∀ c ∈ t, c ≠ rbrace) :
    ∀ c ∈ dirInner a b t, c ≠ rbrace := by
  have h1 : ∀ c ∈ segType, c ≠ rbrace := by decide
  have h2 : ∀ c ∈ segFrom2, c ≠ rbrace := by decide
  have h3 : ∀ c ∈ segTo2, c ≠ rbrace := by decide
  have h4 : ∀ c ∈ segText, c ≠ rbrace := by decide
  have h5 : ∀ n : Nat, ∀ c ∈ natChars n, c ≠ rbrace := by
    intro n c hc
    obtain ⟨d, hd, rfl⟩ := natChars_mem n c hc
    exact (digitChar_props d hd).2.2.1
  intro c hc
  simp only [dirInner, List.mem_append, List.mem_cons] at hc
  rcases hc with hc | hc | hc | hc | hc | hc | hc | hc | hc | hc | hc | hc | hc
  · exact h1 c hc
  · subst hc; decide
  · exact h2 c hc
  · exact h5 a c hc
  · subst hc; decide
  · subst hc; decide
  · exact h3 c hc
  · exact h5 b c hc
  · subst hc; decide
  · subst hc; decide
  · exact h4 c hc
  · exact hrb c hc
  · simp at hc; subst hc; decide

theorem findallBracesF_dirStream : ∀ (rs : List (Nat × Nat × List Char)) (f : Nat),
    (∀ r ∈ rs, ∀ c ∈ r.2.2, c ≠ rbrace) → (dirStream rs).length < f →
    findallBracesF f (dirStream rs) = rs.map (fun r => dirObjData2 r.1 r.2.1 r.2.2) := by
  intro rs
  induction rs with
  | nil =>
    intro f _ hf
    cases f with
    | zero => omega
    | succ f => rfl
  | cons r rs ih =>
    intro f hrb hf
    obtain ⟨a, b, t⟩ := r
    rw [dirStream_cons] at hf ⊢
    simp only [List.length_append, List.length_cons] at hf
    have hl2 := dirObjData2_length_pos a b t
    obtain ⟨f2, rfl⟩ : ∃ f2, f = f2 + 2 := ⟨f - 2, by omega⟩
    have hshape : dirObjData2 (a, b, t).1 (a, b, t).2.1 (a, b, t).2.2 ++ ('\n' :: dirStream rs)
        = lbrace :: (dirInner a b t ++ (rbrace :: ('\n' :: dirStream rs))) := by
      show dirObjData2 a b t ++ ('\n' :: dirStream rs) = _
      rw [show dirObjData2 a b t = lbrace :: (dirInner a b t ++ [rbrace]) from rfl]
      simp [List.append_assoc]
    rw [hshape]
    have hnr : ∀ c ∈ dirInner a b t, c ≠ rbrace :=
      dirInner_no_rbrace a b t (hrb (a, b, t) (List.mem_cons_self _ _))
    have hsplit := splitAtRbrace_append (dirInner a b t) ('\n' :: dirStream rs) hnr
    simp only [findallBracesF, hsplit]
    simp only [show (lbrace = lbrace) = True from by simp, if_true]
    simp only [show ('\n' = lbrace) = False from by simp +decide [], if_false]
    rw [ih f2 (fun x hx => hrb x (List.mem_cons_of_mem _ hx)) (by omega)]
    simp only [List.map_cons]
    rw [show dirObjData2 a b t = lbrace :: (dirInner a b t ++ [rbrace]) from rfl]

theorem objLoop_dirRun : ∀ (rs : List (Nat × Nat × List Char)) (acc : List Json),
    (∀ r ∈ rs, ∀ c ∈ r.2.2, strCharOk c = true) →
    objLoop (rs.map (fun r => dirObjData2 r.1 r.2.1 r.2.2)) acc
      = Except.ok (acc ++ rs.map (fun r => dirJson r.1 r.2.1 r.2.2)) := by
  intro rs
  induction rs with
  | nil => intro acc _; simp [objLoop]
  | cons r rs ih =>
    intro acc hok
    obtain ⟨a, b, t⟩ := r
    simp only [List.map_cons]
    have hj : json_loads (String.mk (dirObjData2 a b t)) = Except.ok (dirJson a b t) :=
      json_loads_dirObj2 a b t (hok (a, b, t) (List.mem_cons_self _ _))
    have hkeys : (isDict (dirJson a b t) && hasKey (dirJson a b t) "type"
        && hasKey (dirJson a b t) "from" && hasKey (dirJson a b t) "to"
        && hasKey (dirJson a b t) "text") = true := by
      simp [dirJson, isDict, hasKey]
    have hstep : objLoop (dirObjData2 a b t :: rs.map (fun r => dirObjData2 r.1 r.2.1 r.2.2)) acc
        = objLoop (rs.map (fun r => dirObjData2 r.1 r.2.1 r.2.2)) (acc ++ [dirJson a b t]) := by
      conv_lhs => unfold objLoop
      rw [hj]
      simp only [hkeys, if_true]
    rw [hstep, ih (acc ++ [dirJson a b t]) (fun x hx => hok x (List.mem_cons_of_mem _ hx))]
    simp

theorem extract_json_objects_dirStream (rs : List (Nat × Nat × List Char))
    (h : ∀ r ∈ rs, ∀ c ∈ r.2.2, strCharOk c = true ∧ c ≠ rbrace) :
    extract_json_objects (dirStreamStr rs) = rs.map (fun r => dirJson r.1 r.2.1 r.2.2) := by
  have hE : extract_json_objectsE (dirStreamStr rs)
      = Except.ok (rs.map (fun r => dirJson r.1 r.2.1 r.2.2)) := by
    unfold extract_json_objectsE
    rw [show (dirStreamStr rs).data = dirStream rs from rfl]
    unfold findallBraces
    rw [findallBracesF_dirStream rs ((dirStream rs).length + 1)
      (fun r hr c hc => (h r hr c hc).2) (by omega)]
    rw [objLoop_dirRun rs [] (fun r hr c hc => (h r hr c hc).1)]
    simp
  unfold extract_json_objects
  rw [hE]

theorem pmStep_pair_last (f d : Nat) (k v : List Char)
    (hk : ∀ c ∈ k, strCharOk c = true) (hv : ∀ c ∈ v, strCharOk c = true)
    (rest : List Char) (acc : List (String × Json)) :
    parseMembers (f + 2) d (optPair (k, v) ++ (rbrace :: rest)) acc
      = Except.ok (Json.obj (acc ++ [(String.mk k, Json.str (String.mk v))]), rest) := by
  have hkey : parseStringBody (k ++ '"' :: ':' :: ' ' :: '"' :: (v ++ '"' :: rbrace :: rest))
      = some (k, ':' :: ' ' :: '"' :: (v ++ '"' :: rbrace :: rest)) :=
    parseStringBody_concat k _ hk
  have hval : parseStringBody (v ++ '"' :: rbrace :: rest) = some (v, rbrace :: rest) :=
    parseStringBody_concat v _ hv
  simp +decide [optPair, parseMembers, parseVal, isJsonWs, List.dropWhile,
    List.cons_append, List.append_assoc, hkey, hval]

theorem pmStep_pair_cont (f d : Nat) (k v : List Char)
    (hk : ∀ c ∈ k, strCharOk c = true) (hv : ∀ c ∈ v, strCharOk c = true)
    (Y : List Char) (acc : List (String × Json)) :
    parseMembers (f + 2) d (optPair (k, v) ++ (',' :: ' ' :: ('"' :: Y))) acc
      = parseMembers (f + 1) d ('"' :: Y) (acc ++ [(String.mk k, Json.str (String.mk v))]) := by
  have hkey : parseStringBody (k ++ '"' :: ':' :: ' ' :: '"' :: (v ++ '"' :: ',' :: ' ' :: '"' :: Y))
      = some (k, ':' :: ' ' :: '"' :: (v ++ '"' :: ',' :: ' ' :: '"' :: Y)) :=
    parseStringBody_concat k _ hk
  have hval : parseStringBody (v ++ '"' :: ',' :: ' ' :: '"' :: Y) = some (v, ',' :: ' ' :: '"' :: Y) :=
    parseStringBody_concat v _ hv
  simp +decide [optPair, parseMembers, parseVal, isJsonWs, List.dropWhile,
    List.cons_append, List.append_assoc, hkey, hval]

theorem pmOptsRun : ∀ (ps : List (List Char × List Char)) (p : List Char × List Char)
    (f d : Nat) (acc : List (String × Json)) (rest : List Char),
    ((∀ c ∈ p.1, strCharOk c = true) ∧ (∀ c ∈ p.2, strCharOk c = true)) →
    (∀ q ∈ ps, (∀ c ∈ q.1, strCharOk c = true) ∧ (∀ c ∈ q.2, strCharOk c = true)) →
    ps.length + 1 ≤ f →
    parseMembers (f + 1) d (optPair p ++ (optsTail ps ++ (rbrace :: rest))) acc
      = Except.ok (Json.obj (acc ++ (p :: ps).map pairJson), rest) := by
  intro ps
  induction ps with
  | nil =>
    intro p f d acc rest hp _ hf
    obtain ⟨k, v⟩ := p
    rw [show optsTail [] = [] from rfl, List.nil_append]
    obtain ⟨f1, rfl⟩ : ∃ f1, f = f1 + 1 := ⟨f - 1, by omega⟩
    rw [show f1 + 1 + 1 = f1 + 2 from rfl]
    rw [pmStep_pair_last f1 d k v hp.1 hp.2 rest acc]
    simp [pairJson]
  | cons q ps ih =>
    intro p f d acc rest hp hps hf
    obtain ⟨k, v⟩ := p
    rw [show optsTail (q :: ps) = ',' :: ' ' :: (optPair q ++ optsTail ps) from rfl]
    obtain ⟨f1, rfl⟩ : ∃ f1, f = f1 + 1 := ⟨f - 1, by omega⟩
    have hshape : optPair (k, v) ++ ((',' :: ' ' :: (optPair q ++ optsTail ps)) ++ (rbrace :: rest))
        = optPair (k, v) ++ (',' :: ' ' :: ('"' :: ((q.1 ++ ('"' :: ':' :: ' ' :: '"' ::
            (q.2 ++ ['"']))) ++ (optsTail ps ++ (rbrace :: rest))))) := by
      simp [optPair, List.append_assoc]
    rw [hshape]
    rw [show f1 + 1 + 1 = f1 + 2 from rfl]
    rw [pmStep_pair_cont f1 d k v hp.1 hp.2 _ acc]
    have hfold : ('"' :: ((q.1 ++ ('"' :: ':' :: ' ' :: '"' :: (q.2 ++ ['"'])))
        ++ (optsTail ps ++ (rbrace :: rest))))
        = optPair q ++ (optsTail ps ++ (rbrace :: rest)) := by
      simp [optPair, List.append_assoc]
    rw [hfold]
    rw [ih q f1 d _ rest (hps q (List.mem_cons_self q ps))
      (fun x hx => hps x (List.mem_cons_of_mem _ hx)) (by simp at hf ⊢; omega)]
    simp [pairJson]

theorem pv_objOpen (f d : Nat) (R : List Char) :
    parseVal (f + 1) (d + 1) (lbrace :: ('"' :: R)) = parseMembers f d ('"' :: R) [] := by
  simp +decide [parseVal, List.dropWhile, isJsonWs]

theorem parseVal_optsObj (ps : List (List Char × List Char)) (f d : Nat) (rest : List Char)
    (hps : ∀ q ∈ ps, (∀ c ∈ q.1, strCharOk c = true) ∧ (∀ c ∈ q.2, strCharOk c = true))
    (hf : ps.length + 1 ≤ f) :
    parseVal (f + 1) (d + 1) (optsObjData ps ++ rest)
      = Except.ok (Json.obj (ps.map pairJson), rest) := by
  cases ps with
  | nil =>
    rw [show optsObjData [] ++ rest = lbrace :: (rbrace :: rest) from by
      simp [optsObjData, optsInner]]
    simp +decide [parseVal, List.dropWhile, isJsonWs]
  | cons p ps =>
    rw [show optsObjData (p :: ps) ++ rest
        = lbrace :: ('"' :: ((p.1 ++ ('"' :: ':' :: ' ' :: '"' :: (p.2 ++ ['"'])))
          ++ (optsTail ps ++ (rbrace :: rest)))) from by
      simp [optsObjData, optsInner, optPair, List.append_assoc]]
    obtain ⟨f1, rfl⟩ : ∃ f1, f = f1 + 1 := ⟨f - 1, by omega⟩
    rw [show f1 + 1 + 1 = (f1 + 1) + 1 from rfl, pv_objOpen]
    rw [show ('"' :: ((p.1 ++ ('"' :: ':' :: ' ' :: '"' :: (p.2 ++ ['"'])))
        ++ (optsTail ps ++ (rbrace :: rest))))
        = optPair p ++ (optsTail ps ++ (rbrace :: rest)) from by
      simp [optPair, List.append_assoc]]
    rw [pmOptsRun ps p f1 d [] rest (hps p (List.mem_cons_self p ps))
      (fun x hx => hps x (List.mem_cons_of_mem _ hx)) (by simp at hf ⊢; omega)]
    simp

theorem pvStart_num (f d : Nat) (X : List Char) :
    parseVal (f + 1) (d + 1) (lbrace :: (segNum2 ++ X)) = parseMembers f d (segNum2 ++ X) [] := by
  simp +decide [parseVal, segNum2, isJsonWs, List.dropWhile, List.cons_append]

theorem pmStep_num (f d n : Nat) (X : List Char) (acc : List (String × Json)) :
    parseMembers (f + 2) d (segNum2 ++ (natChars n ++ (',' :: X))) acc
      = parseMembers (f + 1) d (X.dropWhile isJsonWs) (acc ++ [("number", Json.int n)]) := by
  simp +decide [segNum2, parseMembers, parseStringBody.eq_def, escChar, strCharOk, isJsonWs,
    List.dropWhile, List.cons_append, List.nil_append, dropWhile_ws_natChars,
    parseVal_natChars]

theorem pmStep_textMid (t : List Char) (ht : ∀ c ∈ t, strCharOk c = true)
    (f d : Nat) (X : List Char) (acc : List (String × Json)) :
    parseMembers (f + 2) d (segText ++ (t ++ '"' :: ',' :: X)) acc
      = parseMembers (f + 1) d (X.dropWhile isJsonWs) (acc ++ [("text", Json.str (String.mk t))]) := by
  have hpsb : parseStringBody (t ++ '"' :: ',' :: X) = some (t, ',' :: X) :=
    parseStringBody_concat t _ ht
  simp +decide [segText, parseMembers, parseVal, psb_textKey, isJsonWs, List.dropWhile,
    List.cons_append, List.nil_append, hpsb]

theorem dwOpts (X : List Char) :
    List.dropWhile isJsonWs (' ' :: (segOpts2 ++ X)) = segOpts2 ++ X := by
  simp +decide [segOpts2, List.dropWhile, isJsonWs, List.cons_append]

theorem pmStep_optsKey (f d : Nat) (X : List Char) (acc : List (String × Json)) :
    parseMembers (f + 1) d (segOpts2 ++ (lbrace :: X)) acc
      = match parseVal f d (lbrace :: X) with
        | Except.ok (v, r4) =>
          (match r4.dropWhile isJsonWs with
            | ',' :: r5 => parseMembers f d (r5.dropWhile isJsonWs) (acc ++ [("options", v)])
            | d' :: r5 => if d' = rbrace then Except.ok (Json.obj (acc ++ [("options", v)]), r5)
                else Except.error JErr.decode
            | [] => Except.error JErr.decode)
        | Except.error e => Except.error e := by
  simp +decide [segOpts2, parseMembers, parseStringBody.eq_def, escChar, strCharOk,
    isJsonWs, List.dropWhile, List.cons_append]

theorem pmStep_opts_final (ps : List (List Char × List Char)) (f d : Nat)
    (acc : List (String × Json)) (rest : List Char)
    (hps : ∀ q ∈ ps, (∀ c ∈ q.1, strCharOk c = true) ∧ (∀ c ∈ q.2, strCharOk c = true))
    (hf : ps.length + 2 ≤ f) :
    parseMembers (f + 1) (d + 1) (segOpts2 ++ (optsObjData ps ++ (rbrace :: rest))) acc
      = Except.ok (Json.obj (acc ++ [("options", Json.obj (ps.map pairJson))]), rest) := by
  obtain ⟨f1, rfl⟩ : ∃ f1, f = f1 + 1 := ⟨f - 1, by omega⟩
  have hv := parseVal_optsObj ps f1 d (rbrace :: rest) hps (by omega)
  have hshape : optsObjData ps ++ (rbrace :: rest)
      = lbrace :: ((optsInner ps ++ [rbrace]) ++ (rbrace :: rest)) := by
    simp [optsObjData]
  rw [hshape] at hv ⊢
  rw [show f1 + 1 + 1 = (f1 + 1) + 1 from rfl, pmStep_optsKey]
  rw [hv]
  simp +decide [List.dropWhile, isJsonWs]

theorem parseVal_qObj (n : Nat) (t : List Char) (ps : List (List Char × List Char))
    (f d : Nat) (rest : List Char)
    (ht : ∀ c ∈ t, strCharOk c = true)
    (hps : ∀ q ∈ ps, (∀ c ∈ q.1, strCharOk c = true) ∧ (∀ c ∈ q.2, strCharOk c = true))
    (hf : ps.length + 5 ≤ f) :
    parseVal (f + 1) (d + 2) (qObjData2 n t ps ++ rest)
      = Except.ok (qJson n t ps, rest) := by
  have h0 : qObjData2 n t ps ++ rest
      = lbrace :: (segNum2 ++ (natChars n ++ (',' :: (' ' :: (segText ++ (t ++ '"' :: ',' ::
          (' ' :: (segOpts2 ++ (optsObjData ps ++ (rbrace :: rest)))))))))) := by
    simp [qObjData2, qInnerData, List.append_assoc]
  rw [h0]
  obtain ⟨f1, rfl⟩ : ∃ f1, f = f1 + 3 := ⟨f - 3, by omega⟩
  rw [show d + 2 = (d + 1) + 1 from rfl]
  rw [show f1 + 3 + 1 = (f1 + 3) + 1 from rfl, pvStart_num]
  rw [show f1 + 3 = (f1 + 1) + 2 from rfl, pmStep_num]
  rw [dwText, show (f1 + 1) + 1 = f1 + 2 from rfl, pmStep_textMid t ht]
  rw [dwOpts, pmStep_opts_final ps f1 d _ rest hps (by omega)]
  simp [qJson]

theorem dwQObj2 (n : Nat) (t : List Char) (ps : List (List Char × List Char)) (X : List Char) :
    List.dropWhile isJsonWs (qObjData2 n t ps ++ X) = qObjData2 n t ps ++ X := by
  simp +decide [qObjData2, List.dropWhile, isJsonWs, List.cons_append]

theorem pv_arrOpen (f d : Nat) (X : List Char) :
    parseVal (f + 1) (d + 1) ('[' :: (lbrace :: X)) = parseElems f d (lbrace :: X) [] := by
  simp +decide [parseVal, List.dropWhile, isJsonWs]

theorem peStep (f d : Nat) (s : List Char) (acc : List Json) :
    parseElems (f + 1) d s acc = match parseVal f d s with
      | Except.ok (v, r) =>
        (match r.dropWhile isJsonWs with
          | ',' :: r2 => parseElems f d (r2.dropWhile isJsonWs) (acc ++ [v])
          | ']' :: r2 => Except.ok (Json.arr (acc ++ [v]), r2)
          | _ => Except.error JErr.decode)
      | Except.error e => Except.error e := by
  simp only [parseElems]

theorem peRun : ∀ (qs : List (Nat × List Char × List (List Char × List Char)))
    (q : Nat × List Char × List (List Char × List Char))
    (f d : Nat) (acc : List Json) (rest : List Char),
    (∀ x ∈ q :: qs, (∀ c ∈ x.2.1, strCharOk c = true) ∧
      ∀ p ∈ x.2.2, (∀ c ∈ p.1, strCharOk c = true) ∧ (∀ c ∈ p.2, strCharOk c = true)) →
    qCost (q :: qs) ≤ f →
    parseElems f (d + 2) (qObjData2 q.1 q.2.1 q.2.2 ++ (qTail qs ++ (']' :: rest))) acc
      = Except.ok (Json.arr (acc ++ (q :: qs).map (fun x => qJson x.1 x.2.1 x.2.2)), rest) := by
  intro qs
  induction qs with
  | nil =>
    intro q f d acc rest hok hf
    obtain ⟨nn, tt, pp⟩ := q
    simp only [qCost] at hf
    obtain ⟨f2, rfl⟩ : ∃ f2, f = f2 + 2 := ⟨f - 2, by omega⟩
    rw [show qTail [] = [] from rfl, List.nil_append]
    rw [show f2 + 2 = (f2 + 1) + 1 from rfl]
    simp only [parseElems]
    rw [parseVal_qObj nn tt pp f2 d (']' :: rest)
      (hok (nn, tt, pp) (List.mem_cons_self _ _)).1
      (hok (nn, tt, pp) (List.mem_cons_self _ _)).2 (by omega)]
    simp +decide [List.dropWhile, isJsonWs]
  | cons q2 qs ih =>
    intro q f d acc rest hok hf
    obtain ⟨nn, tt, pp⟩ := q
    simp only [qCost] at hf
    obtain ⟨f2, rfl⟩ : ∃ f2, f = f2 + 2 := ⟨f - 2, by omega⟩
    rw [show qTail (q2 :: qs) = ',' :: ' ' :: (qObjData2 q2.1 q2.2.1 q2.2.2 ++ qTail qs)
      from by simp [qTail]]
    have hshape : qObjData2 nn tt pp
          ++ ((',' :: ' ' :: (qObjData2 q2.1 q2.2.1 q2.2.2 ++ qTail qs)) ++ (']' :: rest))
        = qObjData2 nn tt pp
          ++ (',' :: (' ' :: (qObjData2 q2.1 q2.2.1 q2.2.2 ++ (qTail qs ++ (']' :: rest))))) := by
      simp [List.append_assoc]
    rw [hshape]
    rw [show f2 + 2 = (f2 + 1) + 1 from rfl]
    rw [peStep]
    rw [parseVal_qObj nn tt pp f2 d _
      (hok (nn, tt, pp) (List.mem_cons_self _ _)).1
      (hok (nn, tt, pp) (List.mem_cons_self _ _)).2 (by omega)]
    simp +decide [List.dropWhile, isJsonWs, dwQObj2]
    rw [show lbrace :: (qInnerData q2.1 q2.2.1 q2.2.2 ++ (qTail qs ++ ']' :: rest))
        = qObjData2 q2.1 q2.2.1 q2.2.2 ++ (qTail qs ++ ']' :: rest) from by simp [qObjData2]]
    rw [ih q2 (f2 + 1) d (acc ++ [qJson nn tt pp]) rest
      (fun x hx => hok x (List.mem_cons_of_mem _ hx)) (by simp only [qCost]; omega)]
    simp

theorem parseVal_qArr (q : Nat × List Char × List (List Char × List Char))
    (qs : List (Nat × List Char × List (List Char × List Char)))
    (f d : Nat) (rest : List Char)
    (hok : ∀ x ∈ q :: qs, (∀ c ∈ x.2.1, strCharOk c = true) ∧
      ∀ p ∈ x.2.2, (∀ c ∈ p.1, strCharOk c = true) ∧ (∀ c ∈ p.2, strCharOk c = true))
    (hf : qCost (q :: qs) ≤ f) :
    parseVal (f + 1) (d + 3) (qArrData (q :: qs) ++ rest)
      = Except.ok (Json.arr ((q :: qs).map (fun x => qJson x.1 x.2.1 x.2.2)), rest) := by
  obtain ⟨nn, tt, pp⟩ := q
  rw [show qArrData ((nn, tt, pp) :: qs) ++ rest
      = '[' :: (lbrace :: (qInnerData nn tt pp ++ (qTail qs ++ (']' :: rest)))) from by
    simp [qArrData, qObjData2, List.append_assoc]]
  rw [show d + 3 = (d + 2) + 1 from rfl, pv_arrOpen]
  rw [show lbrace :: (qInnerData nn tt pp ++ (qTail qs ++ (']' :: rest)))
      = qObjData2 nn tt pp ++ (qTail qs ++ (']' :: rest)) from by simp [qObjData2]]
  rw [peRun qs (nn, tt, pp) f d [] rest hok hf]
  simp

theorem optsTail_len (ps : List (List Char × List Char)) : ps.length ≤ (optsTail ps).length := by
  induction ps with
  | nil => simp [optsTail]
  | cons p ps ih => simp [optsTail]; omega

theorem optsInner_len (ps : List (List Char × List Char)) :
    ps.length ≤ (optsInner ps).length := by
  cases ps with
  | nil => simp [optsInner]
  | cons p ps =>
    have h1 := optsTail_len ps
    simp [optsInner, optPair]
    omega

theorem natChars_len (n : Nat) : 1 ≤ (natChars n).length := by
  obtain ⟨d0, tl, heq, -, -, -⟩ := natChars_spec n
  rw [heq]
  simp

theorem qObjLen (n : Nat) (t : List Char) (ps : List (List Char × List Char)) :
    ps.length + 8 ≤ (qObjData2 n t ps).length := by
  have h1 := optsInner_len ps
  have h2 := natChars_len n
  have h3 : segNum2.length = 10 := by decide
  have h4 : segText.length = 9 := by decide
  have h5 : segOpts2.length = 11 := by decide
  simp [qObjData2, qInnerData, optsObjData, List.length_append, h3, h4, h5]
  omega

theorem qTailCost : ∀ qs : List (Nat × List Char × List (List Char × List Char)),
    qCost qs ≤ (qTail qs).length := by
  intro qs
  induction qs with
  | nil => simp [qCost, qTail]
  | cons q qs ih =>
    have h1 := qObjLen q.1 q.2.1 q.2.2
    simp [qCost, qTail]
    omega

theorem qCost_le (q : Nat × List Char × List (List Char × List Char))
    (qs : List (Nat × List Char × List (List Char × List Char))) :
    qCost (q :: qs) + 1 ≤ (qArrData (q :: qs)).length := by
  have h1 := qObjLen q.1 q.2.1 q.2.2
  have h2 := qTailCost qs
  obtain ⟨nn, tt, pp⟩ := q
  simp [qCost, qArrData] at h1 h2 ⊢
  omega

theorem json_loads_qArr (q : Nat × List Char × List (List Char × List Char))
    (qs : List (Nat × List Char × List (List Char × List Char)))
    (hok : ∀ x ∈ q :: qs, (∀ c ∈ x.2.1, strCharOk c = true) ∧
      ∀ p ∈ x.2.2, (∀ c ∈ p.1, strCharOk c = true) ∧ (∀ c ∈ p.2, strCharOk c = true)) :
    json_loads (String.mk (qArrData (q :: qs)))
      = Except.ok (Json.arr ((q :: qs).map (fun x => qJson x.1 x.2.1 x.2.2))) := by
  unfold json_loads
  rw [show (String.mk (qArrData (q :: qs))).data = qArrData (q :: qs) from rfl]
  have hdw : (qArrData (q :: qs)).dropWhile isJsonWs = qArrData (q :: qs) := by
    obtain ⟨nn, tt, pp⟩ := q
    rw [show qArrData ((nn, tt, pp) :: qs)
        = '[' :: (qObjData2 nn tt pp ++ (qTail qs ++ [']'])) from by simp [qArrData]]
    rw [List.dropWhile_cons]
    simp +decide []
  rw [hdw]
  have hcost := qCost_le q qs
  rw [show 2 * (qArrData (q :: qs)).length + 2 = (2 * (qArrData (q :: qs)).length + 1) + 1
    from rfl]
  set F := 2 * (qArrData (q :: qs)).length + 1 with hF
  rw [show qArrData (q :: qs) = qArrData (q :: qs) ++ [] from by simp]
  rw [show PY_RECURSION_LIMIT = 997 + 3 from rfl]
  rw [parseVal_qArr q qs F 997 [] hok (by omega)]
  simp

theorem nil_nb : ∀ c ∈ ([] : List Char), c ≠ backq := by simp

theorem append_nb {A B : List Char} (hA : ∀ c ∈ A, c ≠ backq) (hB : ∀ c ∈ B, c ≠ backq) :
    ∀ c ∈ A ++ B, c ≠ backq := by
  intro c hc
  rcases List.mem_append.mp hc with h | h
  · exact hA c h
  · exact hB c h

theorem cons_nb {a : Char} {B : List Char} (ha : a ≠ backq) (hB : ∀ c ∈ B, c ≠ backq) :
    ∀ c ∈ a :: B, c ≠ backq := by
  intro c hc
  rcases List.mem_cons.mp hc with rfl | h
  · exact ha
  · exact hB c h

theorem natChars_nb (n : Nat) : ∀ c ∈ natChars n, c ≠ backq := by
  intro c hc
  obtain ⟨d, hd, rfl⟩ := natChars_mem n c hc
  exact (digitChar_props d hd).2.2.2.1

theorem optPair_nb (p : List Char × List Char)
    (h1 : ∀ c ∈ p.1, c ≠ backq) (h2 : ∀ c ∈ p.2, c ≠ backq) :
    ∀ c ∈ optPair p, c ≠ backq :=
  cons_nb (by decide) (append_nb h1 (cons_nb (by decide) (cons_nb (by decide)
    (cons_nb (by decide) (cons_nb (by decide)
      (append_nb h2 (cons_nb (by decide) nil_nb)))))))

theorem optsTail_nb : ∀ (ps : List (List Char × List Char)),
    (∀ p ∈ ps, (∀ c ∈ p.1, c ≠ backq) ∧ (∀ c ∈ p.2, c ≠ backq)) →
    ∀ c ∈ optsTail ps, c ≠ backq := by
  intro ps
  induction ps with
  | nil => intro _; exact nil_nb
  | cons p ps ih =>
    intro h
    rw [show optsTail (p :: ps) = ',' :: ' ' :: (optPair p ++ optsTail ps) from rfl]
    exact cons_nb (by decide) (cons_nb (by decide)
      (append_nb (optPair_nb p (h p (List.mem_cons_self p ps)).1 (h p (List.mem_cons_self p ps)).2)
        (ih (fun x hx => h x (List.mem_cons_of_mem _ hx)))))

theorem optsObjData_nb (ps : List (List Char × List Char))
    (h : ∀ p ∈ ps, (∀ c ∈ p.1, c ≠ backq) ∧ (∀ c ∈ p.2, c ≠ backq)) :
    ∀ c ∈ optsObjData ps, c ≠ backq := by
  cases ps with
  | nil => exact cons_nb (by decide) (cons_nb (by decide) nil_nb)
  | cons p ps =>
    rw [show optsObjData (p :: ps) = lbrace :: ((optPair p ++ optsTail ps) ++ [rbrace]) from rfl]
    exact cons_nb (by decide) (append_nb
      (append_nb (optPair_nb p (h p (List.mem_cons_self p ps)).1 (h p (List.mem_cons_self p ps)).2)
        (optsTail_nb ps (fun x hx => h x (List.mem_cons_of_mem _ hx))))
      (cons_nb (by decide) nil_nb))

theorem segNum2_nb : ∀ c ∈ segNum2, c ≠ backq := by decide

theorem segText_nb : ∀ c ∈ segText, c ≠ backq := by decide

theorem segOpts2_nb : ∀ c ∈ segOpts2, c ≠ backq := by decide

theorem qObjData2_nb (n : Nat) (t : List Char) (ps : List (List Char × List Char))
    (ht : ∀ c ∈ t, c ≠ backq)
    (hps : ∀ p ∈ ps, (∀ c ∈ p.1, c ≠ backq) ∧ (∀ c ∈ p.2, c ≠ backq)) :
    ∀ c ∈ qObjData2 n t ps, c ≠ backq := by
  rw [show qObjData2 n t ps = lbrace :: (segNum2 ++ (natChars n ++ (',' :: (' ' ::
      (segText ++ (t ++ '"' :: ',' :: (' ' :: (segOpts2 ++ (optsObjData ps ++ [rbrace]))))))))) from rfl]
  exact cons_nb (by decide) (append_nb segNum2_nb (append_nb (natChars_nb n)
    (cons_nb (by decide) (cons_nb (by decide) (append_nb segText_nb
      (append_nb ht (cons_nb (by decide) (cons_nb (by decide) (cons_nb (by decide)
        (append_nb segOpts2_nb (append_nb (optsObjData_nb ps hps)
          (cons_nb (by decide) nil_nb))))))))))))

theorem qTail_nb : ∀ (qs : List (Nat × List Char × List (List Char × List Char))),
    (∀ x ∈ qs, (∀ c ∈ x.2.1, c ≠ backq) ∧
      ∀ p ∈ x.2.2, (∀ c ∈ p.1, c ≠ backq) ∧ (∀ c ∈ p.2, c ≠ backq)) →
    ∀ c ∈ qTail qs, c ≠ backq := by
  intro qs
  induction qs with
  | nil => intro _; exact nil_nb
  | cons x qs ih =>
    intro h
    rw [show qTail (x :: qs) = ',' :: ' ' :: (qObjData2 x.1 x.2.1 x.2.2 ++ qTail qs) from by
      simp [qTail]]
    exact cons_nb (by decide) (cons_nb (by decide)
      (append_nb (qObjData2_nb x.1 x.2.1 x.2.2 (h x (List.mem_cons_self x qs)).1
          (h x (List.mem_cons_self x qs)).2)
        (ih (fun y hy => h y (List.mem_cons_of_mem _ hy)))))

theorem qArrData_nb (qs : List (Nat × List Char × List (List Char × List Char)))
    (h : ∀ x ∈ qs, (∀ c ∈ x.2.1, c ≠ backq) ∧
      ∀ p ∈ x.2.2, (∀ c ∈ p.1, c ≠ backq) ∧ (∀ c ∈ p.2, c ≠ backq)) :
    ∀ c ∈ qArrData qs, c ≠ backq := by
  cases qs with
  | nil => exact cons_nb (by decide) (cons_nb (by decide) nil_nb)
  | cons x qs =>
    rw [show qArrData (x :: qs) = '[' :: (qObjData2 x.1 x.2.1 x.2.2 ++ (qTail qs ++ [']']))
      from by simp [qArrData]]
    exact cons_nb (by decide) (append_nb (qObjData2_nb x.1 x.2.1 x.2.2
        (h x (List.mem_cons_self x qs)).1 (h x (List.mem_cons_self x qs)).2)
      (append_nb (qTail_nb qs (fun y hy => h y (List.mem_cons_of_mem _ hy)))
        (cons_nb (by decide) nil_nb)))

theorem qInnerData_shape (n : Nat) (t : List Char) (ps : List (List Char × List Char)) :
    qInnerData n t ps = (segNum2 ++ (natChars n ++ (',' :: (' ' :: (segText ++ (t ++ '"' :: ',' ::
      (' ' :: (segOpts2 ++ optsObjData ps)))))))) ++ [rbrace] := by
  simp [qInnerData, List.append_assoc]

theorem qChain_suffix : ∀ (qs : List (Nat × List Char × List (List Char × List Char)))
    (n : Nat) (t : List Char) (ps : List (List Char × List Char)),
    ∃ A : List Char, qInnerData n t ps ++ (qTail qs ++ [']']) = A ++ (rbrace :: (']' :: []))
      ∧ A.length + 2 = (qInnerData n t ps ++ (qTail qs ++ [']'])).length := by
  intro qs
  induction qs with
  | nil =>
    intro n t ps
    refine ⟨segNum2 ++ (natChars n ++ (',' :: (' ' :: (segText ++ (t ++ '"' :: ',' ::
      (' ' :: (segOpts2 ++ optsObjData ps))))))), ?_, ?_⟩
    · rw [qInnerData_shape]
      rw [show qTail [] = [] from rfl]
      simp [List.append_assoc]
    · rw [qInnerData_shape]
      rw [show qTail [] = [] from rfl]
      simp only [List.length_append, List.length_cons, List.length_nil]
      try omega
  | cons q2 qs ih =>
    intro n t ps
    obtain ⟨A2, hA2, hlen⟩ := ih q2.1 q2.2.1 q2.2.2
    refine ⟨qInnerData n t ps ++ (',' :: ' ' :: lbrace :: A2), ?_, ?_⟩
    · rw [show qTail (q2 :: qs) = ',' :: ' ' :: (qObjData2 q2.1 q2.2.1 q2.2.2 ++ qTail qs)
        from by simp [qTail]]
      rw [show qObjData2 q2.1 q2.2.1 q2.2.2 = lbrace :: qInnerData q2.1 q2.2.1 q2.2.2 from rfl]
      simp only [List.append_assoc, List.cons_append, List.nil_append]
      rw [hA2]
    · rw [show qTail (q2 :: qs) = ',' :: ' ' :: (qObjData2 q2.1 q2.2.1 q2.2.2 ++ qTail qs)
        from by simp [qTail]]
      rw [show qObjData2 q2.1 q2.2.1 q2.2.2 = lbrace :: qInnerData q2.1 q2.2.1 q2.2.2 from rfl]
      simp only [List.length_append, List.length_cons, List.length_nil] at hlen ⊢
      omega

theorem lastCloseEnd_pair : lastCloseEnd (rbrace :: (']' :: [])) = some 2 := by decide

theorem lastCloseEnd_qChain (qs : List (Nat × List Char × List (List Char × List Char)))
    (n : Nat) (t : List Char) (ps : List (List Char × List Char)) :
    lastCloseEnd (qInnerData n t ps ++ (qTail qs ++ [']']))
      = some ((qInnerData n t ps ++ (qTail qs ++ [']'])).length) := by
  obtain ⟨A, hA, hlen⟩ := qChain_suffix qs n t ps
  rw [hA, lastCloseEnd_append A (rbrace :: (']' :: [])) 2 lastCloseEnd_pair]
  simp only [List.length_append, List.length_cons, List.length_nil] at hlen ⊢
  try omega

theorem amHere_qArr (nn : Nat) (tt : List Char) (pp : List (List Char × List Char))
    (qs : List (Nat × List Char × List (List Char × List Char))) :
    arrayMatchHere ('[' :: (lbrace :: (qInnerData nn tt pp ++ (qTail qs ++ [']']))))
      = some ('[' :: (lbrace :: (qInnerData nn tt pp ++ (qTail qs ++ [']'])))) := by
  have hlast := lastCloseEnd_qChain qs nn tt pp
  have htw : (lbrace :: (qInnerData nn tt pp ++ (qTail qs ++ [']']))).takeWhile isPySpace
      = [] := by
    rw [List.takeWhile_cons]
    simp +decide [isPySpace]
  have htake : ('[' :: (lbrace :: (qInnerData nn tt pp ++ (qTail qs ++ [']'])))).take
      (0 + (qInnerData nn tt pp ++ (qTail qs ++ [']'])).length + 2)
      = '[' :: (lbrace :: (qInnerData nn tt pp ++ (qTail qs ++ [']']))) := by
    have hl : 0 + (qInnerData nn tt pp ++ (qTail qs ++ [']'])).length + 2
        = ('[' :: (lbrace :: (qInnerData nn tt pp ++ (qTail qs ++ [']'])))).length := by
      simp
      try omega
    rw [hl, List.take_length]
  rw [arrayMatchHere]
  rw [if_pos rfl]
  simp only [htw, List.length_nil, List.drop_zero]
  simp only [if_pos rfl, hlast]
  simp [htake]

theorem searchArrayMatch_qArr (q : Nat × List Char × List (List Char × List Char))
    (qs : List (Nat × List Char × List (List Char × List Char))) :
    searchArrayMatch (qArrData (q :: qs)) = some (qArrData (q :: qs)) := by
  obtain ⟨nn, tt, pp⟩ := q
  rw [show qArrData ((nn, tt, pp) :: qs)
      = '[' :: (lbrace :: (qInnerData nn tt pp ++ (qTail qs ++ [']']))) from by
    simp [qArrData, qObjData2, List.append_assoc]]
  rw [searchArrayMatch, amHere_qArr]

theorem extract_json_array_qArr (q : Nat × List Char × List (List Char × List Char))
    (qs : List (Nat × List Char × List (List Char × List Char)))
    (hok : ∀ x ∈ q :: qs, (∀ c ∈ x.2.1, strCharOk c = true) ∧
      ∀ p ∈ x.2.2, (∀ c ∈ p.1, strCharOk c = true) ∧ (∀ c ∈ p.2, strCharOk c = true))
    (hnb : ∀ x ∈ q :: qs, (∀ c ∈ x.2.1, c ≠ backq) ∧
      ∀ p ∈ x.2.2, (∀ c ∈ p.1, c ≠ backq) ∧ (∀ c ∈ p.2, c ≠ backq)) :
    extract_json_array (String.mk (qArrData (q :: qs)))
      = (q :: qs).map (fun x => qJson x.1 x.2.1 x.2.2) := by
  have hst : stripTicks (qArrData (q :: qs)) = qArrData (q :: qs) :=
    stripTicks_id _ (qArrData_nb (q :: qs) hnb)
  have hM : qArrData (q :: qs) = '[' :: ((qObjData2 q.1 q.2.1 q.2.2 ++ qTail qs) ++ [']']) := by
    rw [show qArrData (q :: qs) = '[' :: (qObjData2 q.1 q.2.1 q.2.2 ++ (qTail qs ++ [']']))
      from by simp [qArrData]]
    simp [List.append_assoc]
  have hps : pyStrip (qArrData (q :: qs)) = qArrData (q :: qs) := by
    rw [hM, pyStrip_ends '[' ']' _ (by decide) (by decide), ← hM]
  unfold extract_json_array extract_json_arrayE
  rw [show (String.mk (qArrData (q :: qs))).data = qArrData (q :: qs) from rfl]
  simp only [hst, hps, searchArrayMatch_qArr q qs, json_loads_qArr q qs hok]

/-- C9 counterexample: the normalizers are not idempotent on all
already-valid input.  A strictly valid DirectionBlock whose text value
contains a right brace parses strictly to a schema-valid record, yet
extract_json_objects returns nothing: the lazy brace-pair regex cuts the
candidate at the first right brace, inside the string.  A strictly valid
question array whose text value contains a backtick code fence has that
fence deleted by the re.sub step before parsing: the value comes back
rewritten. -/
theorem c9_counterexample :
    json_loads "\x7b\"type\": \"description\", \"from\": 1, \"to\": 5, \"text\": \"a\x7db\"\x7d"
      = Except.ok (Json.obj [("type", Json.str "description"), ("from", Json.int 1),
          ("to", Json.int 5), ("text", Json.str "a\x7db")]) ∧
    DirectionBlockValid (Json.obj [("type", Json.str "description"), ("from", Json.int 1),
      ("to", Json.int 5), ("text", Json.str "a\x7db")]) = true ∧
    extract_json_objects "\x7b\"type\": \"description\", \"from\": 1, \"to\": 5, \"text\": \"a\x7db\"\x7d"
      = [] ∧
    json_loads "[\x7b\"number\": 1, \"text\": \"a```b\", \"options\": \x7b\"a\": \"x\"\x7d\x7d]"
      = Except.ok (Json.arr [Json.obj [("number", Json.int 1), ("text", Json.str "a```b"),
          ("options", Json.obj [("a", Json.str "x")])]]) ∧
    extract_json_array "[\x7b\"number\": 1, \"text\": \"a```b\", \"options\": \x7b\"a\": \"x\"\x7d\x7d]"
      = [Json.obj [("number", Json.int 1), ("text", Json.str "ab"),
          ("options", Json.obj [("a", Json.str "x")])]] ∧
    Json.str "a```b" ≠ Json.str "ab" :=
  ⟨rfl, rfl, rfl, rfl, rfl, by simp⟩

/-- C9 amended: idempotency on already-valid input holds away from the
slicing artifacts.  For every list of direction records (any from/to
integers, any text of plain characters: no quote, backslash or control
character, no right brace, no backtick) the directions normaliser on the
serialized stream of DirectionBlock objects returns exactly those records;
and for every list of question records (any number, any plain text, any
option map with plain keys and values, empty maps included) the questions
normaliser on the serialized array returns exactly those records — no
value rewritten, none dropped, none added. -/
theorem c9_amended (rs : List (Nat × Nat × List Char))
    (qs : List (Nat × List Char × List (List Char × List Char)))
    (hrs : ∀ r ∈ rs, ∀ c ∈ r.2.2, plainChar c = true)
    (hqs : ∀ x ∈ qs, (∀ c ∈ x.2.1, plainChar c = true) ∧
      ∀ p ∈ x.2.2, (∀ c ∈ p.1, plainChar c = true) ∧ (∀ c ∈ p.2, plainChar c = true)) :
    extract_json_objects (dirStreamStr rs) = rs.map (fun r => dirJson r.1 r.2.1 r.2.2) ∧
    extract_json_array (String.mk (qArrData qs)) = qs.map (fun x => qJson x.1 x.2.1 x.2.2) := by
  have hPC : ∀ c : Char, plainChar c = true → strCharOk c = true ∧ c ≠ rbrace ∧ c ≠ backq := by
    intro c h
    have h2 : (strCharOk c = true ∧ ¬c = rbrace) ∧ ¬c = backq := by
      simpa [plainChar, Bool.and_eq_true, decide_eq_true_eq] using h
    exact ⟨h2.1.1, h2.1.2, h2.2⟩
  constructor
  · exact extract_json_objects_dirStream rs (fun r hr c hc =>
      ⟨(hPC c (hrs r hr c hc)).1, (hPC c (hrs r hr c hc)).2.1⟩)
  · cases qs with
    | nil => rfl
    | cons q qs =>
      exact extract_json_array_qArr q qs
        (fun x hx => ⟨fun c hc => (hPC c ((hqs x hx).1 c hc)).1,
          fun p hp => ⟨fun c hc => (hPC c (((hqs x hx).2 p hp).1 c hc)).1,
            fun c hc => (hPC c (((hqs x hx).2 p hp).2 c hc)).1⟩⟩)
        (fun x hx => ⟨fun c hc => (hPC c ((hqs x hx).1 c hc)).2.2,
          fun p hp => ⟨fun c hc => (hPC c (((hqs x hx).2 p hp).1 c hc)).2.2,
            fun c hc => (hPC c (((hqs x hx).2 p hp).2 c hc)).2.2⟩⟩)

/-- C9 amended witness: a two-record direction stream (distinct bounds,
a zero lower bound) and a two-record question array (a two-option map and
an empty one) round-trip unchanged. -/
theorem c9_amended_witness :
    extract_json_objects (dirStreamStr [(1, 5, ['x']), (0, 12, ['h', 'i'])])
      = [dirJson 1 5 ['x'], dirJson 0 12 ['h', 'i']] ∧
    extract_json_array (String.mk (qArrData [(2, ['q'], [(['a'], ['u']), (['b'], ['v'])]),
        (3, ['r'], [])]))
      = [qJson 2 ['q'] [(['a'], ['u']), (['b'], ['v'])], qJson 3 ['r'] []] :=
  ⟨(c9_amended [(1, 5, ['x']), (0, 12, ['h', 'i'])] [] (by decide) (by decide)).1,
   (c9_amended [] [(2, ['q'], [(['a'], ['u']), (['b'], ['v'])]), (3, ['r'], [])]
     (by decide) (by decide)).2⟩

theorem pv_open_zero (g m : Nat) (rest : List Char) :
    parseVal (g + 1) 0 ('[' :: (List.replicate m '[' ++ rest)) = Except.error JErr.recursion := by
  simp +decide [parseVal]

theorem pv_open_step (f d : Nat) (t : List Char) :
    parseVal (f + 1) (d + 1) ('[' :: ('[' :: t)) = parseElems f d ('[' :: t) [] := by
  simp +decide [parseVal, List.dropWhile, isJsonWs]

theorem pe_err_step (f d : Nat) (s : List Char) (acc : List Json)
    (h : parseVal f d s = Except.error JErr.recursion) :
    parseElems (f + 1) d s acc = Except.error JErr.recursion := by
  simp [parseElems, h]

theorem parseVal_deepOpen : ∀ (d g m : Nat) (rest : List Char),
    parseVal (2 * d + g + 1) d (List.replicate (d + 1 + m) '[' ++ rest)
      = Except.error JErr.recursion := by
  intro d
  induction d with
  | zero =>
    intro g m rest
    rw [show (0 : Nat) + 1 + m = m + 1 from by omega, List.replicate_succ, List.cons_append,
      show 2 * 0 + g + 1 = g + 1 from by omega]
    exact pv_open_zero g m rest
  | succ d ih =>
    intro g m rest
    rw [show d + 1 + 1 + m = (d + m) + 1 + 1 from by omega, List.replicate_succ,
      List.replicate_succ, List.cons_append, List.cons_append,
      show 2 * (d + 1) + g + 1 = (2 * d + g + 2) + 1 from by omega,
      pv_open_step]
    rw [show 2 * d + g + 2 = (2 * d + g + 1) + 1 from by omega]
    apply pe_err_step
    have h1 := ih g m rest
    rw [show d + 1 + m = (d + m) + 1 from by omega, List.replicate_succ, List.cons_append] at h1
    exact h1

theorem pm_aKey_err (f d : Nat) (Y : List Char)
    (h : parseVal f d ('[' :: Y) = Except.error JErr.recursion) :
    parseMembers (f + 1) d ('"' :: 'a' :: '"' :: ':' :: ' ' :: '[' :: Y) []
      = Except.error JErr.recursion := by
  simp +decide [parseMembers, parseStringBody.eq_def, escChar, strCharOk, isJsonWs,
    List.dropWhile, h]

theorem pv_obj_err (f d : Nat) (R : List Char)
    (h : parseMembers f d ('"' :: R) [] = Except.error JErr.recursion) :
    parseVal (f + 1) (d + 1) (lbrace :: '"' :: R) = Except.error JErr.recursion := by
  simp +decide [parseVal, List.dropWhile, isJsonWs, h]

theorem parseVal_deepNest :
    parseVal 8018 1000 deepNestData = Except.error JErr.recursion := by
  have hZ := parseVal_deepOpen 999 6017 1000 ('1' :: (List.replicate 2000 ']' ++ [rbrace]))
  rw [show 2 * 999 + 6017 + 1 = 8016 from rfl, show 999 + 1 + 1000 = 2000 from rfl] at hZ
  rw [show (2000 : Nat) = 1999 + 1 from rfl, List.replicate_succ, List.cons_append] at hZ
  have hM := pm_aKey_err 8016 999
    (List.replicate 1999 '[' ++ ('1' :: (List.replicate 2000 ']' ++ [rbrace]))) hZ
  have hV := pv_obj_err 8017 999 _ hM
  rw [deepNestData]
  rw [show List.replicate 2000 '[' = '[' :: List.replicate 1999 '[' from
    by rw [show (2000 : Nat) = 1999 + 1 from rfl, List.replicate_succ]]
  rw [List.cons_append]
  exact hV

theorem deepLen (n : Nat) : (lbrace :: '"' :: 'a' :: '"' :: ':' :: ' ' ::
    (List.replicate n '[' ++ ('1' :: (List.replicate n ']' ++ [rbrace])))).length
      = 2 * n + 8 := by
  simp
  omega

theorem deepNestData_length : deepNestData.length = 4008 := by
  rw [deepNestData, deepLen]

theorem json_loads_deepNest : json_loads deepNest = Except.error JErr.recursion := by
  unfold json_loads
  have h1 : deepNest.data = deepNestData := rfl
  rw [h1, deepNestData_length,
    show 2 * 4008 + 2 = 8018 from rfl,
    show deepNestData.dropWhile isJsonWs = deepNestData from rfl,
    show PY_RECURSION_LIMIT = 1000 from rfl,
    parseVal_deepNest]

theorem deepShape (n : Nat) :
    lbrace :: '"' :: 'a' :: '"' :: ':' :: ' ' ::
      (List.replicate n '[' ++ ('1' :: (List.replicate n ']' ++ [rbrace])))
    = lbrace :: (('"' :: 'a' :: '"' :: ':' :: ' ' ::
      (List.replicate n '[' ++ ('1' :: List.replicate n ']'))) ++ [rbrace]) := by
  simp [List.append_assoc]

theorem deepNoRbrace (n : Nat) : ∀ c ∈ ('"' :: 'a' :: '"' :: ':' :: ' ' ::
    (List.replicate n '[' ++ ('1' :: List.replicate n ']'))), c ≠ rbrace := by
  intro c hc heq
  subst heq
  simp +decide [List.mem_replicate] at hc

theorem findallBraces_deepGen (n : Nat) :
    findallBraces (lbrace :: '"' :: 'a' :: '"' :: ':' :: ' ' ::
      (List.replicate n '[' ++ ('1' :: (List.replicate n ']' ++ [rbrace]))))
    = [lbrace :: '"' :: 'a' :: '"' :: ':' :: ' ' ::
      (List.replicate n '[' ++ ('1' :: (List.replicate n ']' ++ [rbrace])))] := by
  have hsplit := splitAtRbrace_append _ [] (deepNoRbrace n)
  unfold findallBraces
  rw [deepShape n]
  simp only [List.length_cons, findallBracesF, hsplit, findallBracesF_nil]
  simp [List.append_assoc]

theorem findallBraces_deepNest : findallBraces deepNestData = [deepNestData] := by
  rw [deepNestData]
  exact findallBraces_deepGen 2000

/-- C4 counterexample: on the deeply nested candidate (a left brace, a
quoted key, 2000 nested brackets around a digit, a right brace) the
directions normaliser raises rather than returning an empty sequence: the
single brace-pair match nests past the recursion limit, the strict parse
raises RecursionError, and the loop's except JSONDecodeError does not
catch it, so the exception escapes extract_json_objects (the value form
is what the route's own except Exception handler then turns into a 500,
not an empty record list). -/
theorem c4_counterexample :
    extract_json_objectsE deepNest = Except.error "RecursionError" ∧
    extract_json_objects deepNest = [] := by
  have h1 : extract_json_objectsE deepNest = Except.error "RecursionError" := by
    unfold extract_json_objectsE
    rw [show deepNest.data = deepNestData from rfl, findallBraces_deepNest]
    unfold objLoop
    rw [show String.mk deepNestData = deepNest from rfl, json_loads_deepNest]
  refine ⟨h1, ?_⟩
  unfold extract_json_objects
  rw [h1]

theorem objLoop_total : ∀ (ms : List (List Char)) (acc : List Json),
    (∃ l, objLoop ms acc = Except.ok l) ∨ objLoop ms acc = Except.error "RecursionError" := by
  intro ms
  induction ms with
  | nil => intro acc; exact Or.inl ⟨acc, rfl⟩
  | cons m ms ih =>
    intro acc
    cases hj : json_loads (String.mk m) with
    | ok v =>
      have hstep : objLoop (m :: ms) acc = objLoop ms
          (if isDict v && hasKey v "type" && hasKey v "from"
            && hasKey v "to" && hasKey v "text" then acc ++ [v] else acc) := by
        conv_lhs => unfold objLoop
        rw [hj]
      rw [hstep]
      exact ih _
    | error e =>
      cases e with
      | decode =>
        have hstep : objLoop (m :: ms) acc = objLoop ms acc := by
          conv_lhs => unfold objLoop
          rw [hj]
        rw [hstep]
        exact ih _
      | recursion =>
        refine Or.inr ?_
        conv_lhs => unfold objLoop
        rw [hj]

/-- C4 amended: extract_json_array never raises on any input (its whole
body sits in except Exception, which answers the empty list), but
extract_json_objects is safe only up to RecursionError: on every input it
either returns normally or raises RecursionError, the one error its
per-candidate except json.JSONDecodeError does not absorb. -/
theorem c4_amended (raw : String) :
    (∃ l, extract_json_arrayE raw = Except.ok l) ∧
    ((∃ l, extract_json_objectsE raw = Except.ok l) ∨
      extract_json_objectsE raw = Except.error "RecursionError") := by
  constructor
  · unfold extract_json_arrayE
    split
    · split
      · exact ⟨_, rfl⟩
      · exact ⟨_, rfl⟩
      · exact ⟨_, rfl⟩
    · exact ⟨_, rfl⟩
  · unfold extract_json_objectsE
    exact objLoop_total _ _
